import Mathlib

/-
Verification of the sync core of the coding-agent-sync repository against its
design document. The TypeScript sources are shallowly embedded: pure
computations become functions over Nat, String and List; byte strings are
List Nat with every byte below 256; stateful command flows become explicit
state-passing functions whose fallible external steps (network, disk) are
inputs of type Except or Option. External platform primitives (node crypto
AES-256-GCM keystream and authentication tag, PBKDF2, JSON parse and
stringify) are abstracted as function parameters, while the repository code
built on top of them (envelope layout, hashing pipeline, push and pull control
flow) is translated concretely. SHA-256, UTF-8 and base64 are implemented
concretely and verified.
-/

namespace OCS

/-! ## Generic helpers -/

/-- Association-list lookup, modelling JS object or Map key access. -/
def lookupAssoc (l : List (String × α)) (k : String) : Option α :=
  ((l.find? fun p => p.1 == k).map fun p => p.2)

/-- Association-list update, modelling JS property assignment: an existing key
keeps its position, a new key is appended. -/
def setAssoc : List (String × α) → String → α → List (String × α)
  | [], k, v => [(k, v)]
  | (k1, v1) :: rest, k, v =>
      if k1 == k then (k, v) :: rest else (k1, v1) :: setAssoc rest k v

/-- Whether the second list is a prefix of the first. -/
def listStartsWith : List Char → List Char → Bool
  | _, [] => true
  | [], _ :: _ => false
  | a :: as, b :: bs => a == b && listStartsWith as bs

/-- Whether the second list occurs as a contiguous run inside the first,
modelling the JS String includes method. -/
def listContainsSub : List Char → List Char → Bool
  | [], sub => sub.isEmpty
  | c :: t, sub => listStartsWith (c :: t) sub || listContainsSub t sub

/-- Substring test on strings. -/
def containsSub (hay sub : String) : Bool := listContainsSub hay.data sub.data

/-- ASCII-adequate model of the JS toLowerCase used by the error classifier. -/
def strLower (s : String) : String := ⟨s.data.map Char.toLower⟩

/-! ## SHA-256 (node crypto createHash("sha256"), used by src/utils/hash.ts) -/

/-- Truncate to a 32-bit word; all SHA-256 word arithmetic is mod 2 ^ 32. -/
def w32 (n : Nat) : Nat := n % 4294967296

/-- Right rotation of a 32-bit word by r places. -/
def rotr (r x : Nat) : Nat := w32 (x / 2 ^ r + x % 2 ^ r * 2 ^ (32 - r))

def shaCh (e f g : Nat) : Nat := (e &&& f) ^^^ ((4294967295 - w32 e) &&& g)

def shaMaj (a b c : Nat) : Nat := (a &&& b) ^^^ (a &&& c) ^^^ (b &&& c)

def bigSigma0 (a : Nat) : Nat := rotr 2 a ^^^ rotr 13 a ^^^ rotr 22 a

def bigSigma1 (e : Nat) : Nat := rotr 6 e ^^^ rotr 11 e ^^^ rotr 25 e

def smallSigma0 (x : Nat) : Nat := rotr 7 x ^^^ rotr 18 x ^^^ x / 8

def smallSigma1 (x : Nat) : Nat := rotr 17 x ^^^ rotr 19 x ^^^ x / 1024

/-- The 64 SHA-256 round constants (FIPS 180-4), as decimal words. -/
def shaK : List Nat :=
  [1116352408, 1899447441, 3049323471, 3921009573, 961987163, 1508970993,
   2453635748, 2870763221, 3624381080, 310598401, 607225278, 1426881987,
   1925078388, 2162078206, 2614888103, 3248222580, 3835390401, 4022224774,
   264347078, 604807628, 770255983, 1249150122, 1555081692, 1996064986,
   2554220882, 2821834349, 2952996808, 3210313671, 3336571891, 3584528711,
   113926993, 338241895, 666307205, 773529912, 1294757372, 1396182291,
   1695183700, 1986661051, 2177026350, 2456956037, 2730485921, 2820302411,
   3259730800, 3345764771, 3516065817, 3600352804, 4094571909, 275423344,
   430227734, 506948616, 659060556, 883997877, 958139571, 1322822218,
   1537002063, 1747873779, 1955562222, 2024104815, 2227730452, 2361852424,
   2428436474, 2756734187, 3204031479, 3329325298]

/-- The initial SHA-256 hash state (FIPS 180-4), as decimal words. -/
def shaH0 : List Nat :=
  [1779033703, 3144134277, 1013904242, 2773480762,
   1359893119, 2600822924, 528734635, 1541459225]

/-- Convert a byte list (big-endian groups of four) into 32-bit words. -/
def bytesToWords : List Nat → List Nat
  | b0 :: b1 :: b2 :: b3 :: rest =>
      (b0 * 16777216 + b1 * 65536 + b2 * 256 + b3) :: bytesToWords rest
  | _ => []

/-- Extend a 16-word block with n additional message-schedule words. -/
def shaExtend : List Nat → Nat → List Nat
  | ws, 0 => ws
  | ws, n + 1 =>
      let t := w32 (smallSigma1 (ws.getD (ws.length - 2) 0) + ws.getD (ws.length - 7) 0 +
                    smallSigma0 (ws.getD (ws.length - 15) 0) + ws.getD (ws.length - 16) 0)
      shaExtend (ws ++ [t]) n

/-- One SHA-256 compression round; the state is the list of the eight working
variables. -/
def shaRound (st : List Nat) (kw : Nat × Nat) : List Nat :=
  match st with
  | [a, b, c, d, e, f, g, h] =>
      let t1 := w32 (h + bigSigma1 e + shaCh e f g + kw.1 + kw.2)
      let t2 := w32 (bigSigma0 a + shaMaj a b c)
      [w32 (t1 + t2), a, b, c, w32 (d + t1), e, f, g]
  | other => other

/-- Compress one padded 64-byte block into the running hash state. -/
def shaCompress (h : List Nat) (block : List Nat) : List Nat :=
  let ws := shaExtend (bytesToWords block) 48
  let fin := (shaK.zip ws).foldl shaRound h
  match h, fin with
  | [h0, h1, h2, h3, h4, h5, h6, h7], [a, b, c, d, e, f, g, hh] =>
      [w32 (h0 + a), w32 (h1 + b), w32 (h2 + c), w32 (h3 + d),
       w32 (h4 + e), w32 (h5 + f), w32 (h6 + g), w32 (h7 + hh)]
  | _, _ => h

/-- Big-endian 8-byte encoding of the message bit length. -/
def lenBytes (bits : Nat) : List Nat :=
  [bits / 2 ^ 56 % 256, bits / 2 ^ 48 % 256, bits / 2 ^ 40 % 256, bits / 2 ^ 32 % 256,
   bits / 2 ^ 24 % 256, bits / 2 ^ 16 % 256, bits / 2 ^ 8 % 256, bits % 256]

/-- SHA-256 message padding: a 0x80 byte, zeros to 56 mod 64, then the length. -/
def shaPad (msg : List Nat) : List Nat :=
  msg ++ [128] ++ List.replicate ((64 + 55 - msg.length % 64) % 64) 0 ++ lenBytes (msg.length * 8)

/-- Split a list into 64-byte chunks (fuel-based so it reduces in the kernel). -/
def chunks64 : Nat → List Nat → List (List Nat)
  | 0, _ => []
  | _, [] => []
  | fuel + 1, l => l.take 64 :: chunks64 fuel (l.drop 64)

/-- The eight 32-bit words of the SHA-256 digest of a byte list. -/
def sha256words (msg : List Nat) : List Nat :=
  (chunks64 (msg.length + 9) (shaPad msg)).foldl shaCompress shaH0

def hexChars : List Char := "0123456789abcdef".data

/-- Lower-case hex rendering of one 32-bit word (eight hex digits). -/
def word8Hex (w : Nat) : List Char :=
  [hexChars.getD (w / 2 ^ 28 % 16) '0', hexChars.getD (w / 2 ^ 24 % 16) '0',
   hexChars.getD (w / 2 ^ 20 % 16) '0', hexChars.getD (w / 2 ^ 16 % 16) '0',
   hexChars.getD (w / 2 ^ 12 % 16) '0', hexChars.getD (w / 2 ^ 8 % 16) '0',
   hexChars.getD (w / 2 ^ 4 % 16) '0', hexChars.getD (w % 16) '0']

/-- SHA-256 digest of a byte list as the usual 64-character hex string.
Checked against the standard test vectors for the empty string and "abc". -/
def sha256hex (msg : List Nat) : String := ⟨((sha256words msg).map word8Hex).flatten⟩

/-! ## UTF-8 (node Buffer encoding of strings handed to hash and cipher) -/

/-- UTF-8 encoding of a single code point. -/
def utf8EncChar (c : Nat) : List Nat :=
  if c < 128 then [c]
  else if c < 2048 then [192 + c / 64, 128 + c % 64]
  else if c < 65536 then [224 + c / 4096, 128 + c / 64 % 64, 128 + c % 64]
  else [240 + c / 262144, 128 + c / 4096 % 64, 128 + c / 64 % 64, 128 + c % 64]

/-- UTF-8 encoding of a string, as Buffer.from(s, "utf8"). -/
def utf8Enc (s : String) : List Nat := (s.data.map fun c => utf8EncChar c.toNat).flatten

/-- The Unicode replacement character produced by lenient UTF-8 decoding. -/
def replChar : Char := Char.ofNat 65533

/-- Lenient UTF-8 decoding of a byte list, as Buffer.prototype.toString("utf8"):
malformed bytes become the replacement character instead of failing, and a
multi-byte sequence truncated by the end of the buffer becomes a single
replacement character (the maximal-subpart rule the platform decoder follows),
which matters when a byte-level slice cuts through a character. Fuelled by the
number of characters still allowed, so that it reduces in the kernel; each
step consumes at least one byte, hence byte-length fuel is always enough. -/
def utf8DecF : Nat → List Nat → List Char
  | 0, _ => []
  | _, [] => []
  | fuel + 1, b :: rest =>
    if b < 128 then Char.ofNat b :: utf8DecF fuel rest
    else if b < 192 then replChar :: utf8DecF fuel rest
    else if b < 224 then
      match rest with
      | b1 :: r1 =>
          if 128 ≤ b1 ∧ b1 < 192 then
            Char.ofNat ((b - 192) * 64 + (b1 - 128)) :: utf8DecF fuel r1
          else replChar :: utf8DecF fuel rest
      | [] => [replChar]
    else if b < 240 then
      match rest with
      | b1 :: b2 :: r2 =>
          if (128 ≤ b1 ∧ b1 < 192) ∧ 128 ≤ b2 ∧ b2 < 192 then
            Char.ofNat ((b - 224) * 4096 + (b1 - 128) * 64 + (b2 - 128)) :: utf8DecF fuel r2
          else replChar :: utf8DecF fuel rest
      | [b1] =>
          if 128 ≤ b1 ∧ b1 < 192 then [replChar]
          else replChar :: utf8DecF fuel rest
      | [] => [replChar]
    else if b < 248 then
      match rest with
      | b1 :: b2 :: b3 :: r3 =>
          if ((128 ≤ b1 ∧ b1 < 192) ∧ 128 ≤ b2 ∧ b2 < 192) ∧ 128 ≤ b3 ∧ b3 < 192 then
            Char.ofNat ((b - 240) * 262144 + (b1 - 128) * 4096 + (b2 - 128) * 64 + (b3 - 128)) ::
              utf8DecF fuel r3
          else replChar :: utf8DecF fuel rest
      | [b1, b2] =>
          if (128 ≤ b1 ∧ b1 < 192) ∧ 128 ≤ b2 ∧ b2 < 192 then [replChar]
          else replChar :: utf8DecF fuel rest
      | [b1] =>
          if 128 ≤ b1 ∧ b1 < 192 then [replChar]
          else replChar :: utf8DecF fuel rest
      | [] => [replChar]
    else replChar :: utf8DecF fuel rest

/-- Lenient UTF-8 decoding of a byte list to a string. -/
def utf8DecStr (l : List Nat) : String := ⟨utf8DecF l.length l⟩

/-- UTF-8 encoding at the character-list level; utf8Enc of a string is
utf8EncL of its characters, definitionally. -/
def utf8EncL (cs : List Char) : List Nat := (cs.map fun c => utf8EncChar c.toNat).flatten

/-- SHA-256 content hash of a string, as hashContent in src/utils/hash.ts:
createHash("sha256").update(content).digest("hex"). -/
def hashContent (s : String) : String := sha256hex (utf8Enc s)

/-! ## Base64 (node Buffer toString("base64") / Buffer.from(s, "base64")) -/

def b64Alphabet : List Char :=
  "ABCDEFGHIJKLMNOPQRSTUVWXYZabcdefghijklmnopqrstuvwxyz0123456789+/".data

/-- The base64 character for a sextet. -/
def b64c (n : Nat) : Char := b64Alphabet.getD n 'A'

def b64vGo : List Char → Nat → Char → Nat
  | [], _, _ => 0
  | a :: as, i, c => if a == c then i else b64vGo as (i + 1) c

/-- The sextet value of a base64 character. -/
def b64v (c : Char) : Nat := b64vGo b64Alphabet 0 c

/-- Base64 encoding of a byte list, three bytes to four characters with
trailing = padding. -/
def b64EncGo : List Nat → List Char
  | [] => []
  | [b0] => [b64c (b0 / 4), b64c (b0 % 4 * 16), '=', '=']
  | [b0, b1] => [b64c (b0 / 4), b64c (b0 % 4 * 16 + b1 / 16), b64c (b1 % 16 * 4), '=']
  | b0 :: b1 :: b2 :: rest =>
      b64c (b0 / 4) :: b64c (b0 % 4 * 16 + b1 / 16) :: b64c (b1 % 16 * 4 + b2 / 64) ::
        b64c (b2 % 64) :: b64EncGo rest

def b64Enc (l : List Nat) : String := ⟨b64EncGo l⟩

/-- Base64 decoding, four characters at a time, honouring = padding. -/
def b64DecGo : List Char → List Nat
  | c0 :: c1 :: c2 :: c3 :: rest =>
      if c2 == '=' then [b64v c0 * 4 + b64v c1 / 16]
      else if c3 == '=' then [b64v c0 * 4 + b64v c1 / 16, b64v c1 % 16 * 16 + b64v c2 / 4]
      else (b64v c0 * 4 + b64v c1 / 16) :: (b64v c1 % 16 * 16 + b64v c2 / 4) ::
        (b64v c2 % 4 * 64 + b64v c3) :: b64DecGo rest
  | _ => []

def b64Dec (s : String) : List Nat := b64DecGo s.data

/-! ## Crypto envelope (src crypto module, the unnamed part with encrypt and
decrypt over AES-256-GCM and PBKDF2)

The node crypto primitives are external to the repository, so they enter the
embedding as function parameters: deriveKey stands for pbkdf2Sync over the
passphrase and salt; keystream stands for the AES-256-CTR byte stream that GCM
xors into the plaintext; authTag stands for the GHASH-based authentication tag
GCM computes over the ciphertext for a given key and IV. The repository logic
on top of them (random salt and IV taken as inputs, envelope layout, base64
transport encoding, version check, tag comparison deciding success, the thrown
message) is translated concretely from the source. -/

structure CryptoPrim where
  deriveKey : String → List Nat → Nat
  keystream : Nat → List Nat → Nat → List Nat
  authTag : Nat → List Nat → List Nat → List Nat

/-- The EncryptedData envelope: base64 ciphertext, iv, tag and salt plus a
format version. -/
structure EncryptedData where
  ciphertext : String
  iv : String
  tag : String
  salt : String
  version : Nat
deriving DecidableEq

/-- Pointwise xor of byte lists, the effect of an AEAD streaming cipher. -/
def xorBytes (a b : List Nat) : List Nat := List.zipWith (fun x y => x ^^^ y) a b

/-- encrypt(plaintext, passphrase): derive the key from passphrase and the
fresh random salt, encrypt under the fresh random IV, authenticate, and wrap
everything base64-encoded into a version-1 envelope. Randomness is explicit:
salt and iv are inputs standing for the randomBytes calls. -/
def encrypt (pr : CryptoPrim) (plaintext passphrase : String) (salt iv : List Nat) :
    EncryptedData :=
  let key := pr.deriveKey passphrase salt
  let pt := utf8Enc plaintext
  let ct := xorBytes pt (pr.keystream key iv pt.length)
  let tag := pr.authTag key iv ct
  { ciphertext := b64Enc ct, iv := b64Enc iv, tag := b64Enc tag, salt := b64Enc salt,
    version := 1 }

/-- The message of the error thrown when GCM tag verification fails. -/
def decryptionFailedMsg : String := "Decryption failed: invalid passphrase or corrupted data"

/-- decrypt(data, passphrase): reject foreign envelope versions, decode the
base64 fields, re-derive the key from the stored salt, recompute the
authentication tag over the ciphertext and fail exactly when it does not match
the stored tag; otherwise decrypt and decode the plaintext. -/
def decrypt (pr : CryptoPrim) (data : EncryptedData) (passphrase : String) :
    Except String String :=
  if data.version ≠ 1 then .error ("Unsupported encryption version: " ++ toString data.version)
  else
    let ct := b64Dec data.ciphertext
    let iv := b64Dec data.iv
    let tag := b64Dec data.tag
    let salt := b64Dec data.salt
    let key := pr.deriveKey passphrase salt
    if tag = pr.authTag key iv ct then
      .ok (utf8DecStr (xorBytes ct (pr.keystream key iv ct.length)))
    else .error decryptionFailedMsg

/-- encryptObject: JSON-serialize then encrypt. The platform JSON.stringify is
a parameter. -/
def encryptObject (pr : CryptoPrim) (stringify : α → String) (obj : α) (passphrase : String)
    (salt iv : List Nat) : EncryptedData :=
  encrypt pr (stringify obj) passphrase salt iv

/-- decryptObject: decrypt then JSON-parse. The platform JSON.parse is a
parameter returning none where it would throw. -/
def decryptObject (pr : CryptoPrim) (parse : String → Option α) (data : EncryptedData)
    (passphrase : String) : Except String α :=
  match decrypt pr data passphrase with
  | .error e => .error e
  | .ok s =>
    match parse s with
    | some v => .ok v
    | none => .error "Unexpected token in JSON"

/-! ## Error classification (src/core/errors.ts) -/

inductive ErrorCode where
  | AUTH_NOT_CONFIGURED | AUTH_INVALID_TOKEN | AUTH_TOKEN_EXPIRED | AUTH_MISSING_SCOPE
  | ENCRYPTION_FAILED | DECRYPTION_FAILED | INVALID_PASSPHRASE
  | NETWORK_ERROR | GIST_NOT_FOUND | GIST_PERMISSION_DENIED | RATE_LIMITED
  | STORAGE_READ_ERROR | STORAGE_WRITE_ERROR | CONTEXT_NOT_FOUND | CONTEXT_LIMIT_REACHED
  | SYNC_CONFLICT | SYNC_NO_CHANGES | SYNC_VERSION_MISMATCH | UNKNOWN_ERROR
deriving DecidableEq

/-- toSyncError from src/core/errors.ts, restricted to the code it assigns: the
chain of case-insensitive substring tests over the message of a plain Error. -/
def toSyncErrorCode (message : String) : ErrorCode :=
  let m := strLower message
  if containsSub m "enotfound" || containsSub m "network" then .NETWORK_ERROR
  else if containsSub m "401" || containsSub m "unauthorized" then .AUTH_INVALID_TOKEN
  else if containsSub m "403" || containsSub m "forbidden" then .GIST_PERMISSION_DENIED
  else if containsSub m "404" || containsSub m "not found" then .GIST_NOT_FOUND
  else if containsSub m "rate limit" then .RATE_LIMITED
  else if containsSub m "decrypt" then .DECRYPTION_FAILED
  else .UNKNOWN_ERROR

/-! ## Collection pipeline (src/core/collector.ts and the provider variants)

The filesystem walk is abstracted to its observable result: the list of glob
globMatches in enumeration order (possibly repeated across patterns) and a content
function mapping a matched relative path to the text read from it. Blocklist
filtering keeps its shape through a predicate parameter standing for
minimatch. localeCompare is modelled as the standard string order. -/

structure CollectedFile where
  relativePath : String
  content : String
  hash : String
deriving DecidableEq

structure CollectionResult where
  files : List CollectedFile
  combinedHash : String
  configDir : String
deriving DecidableEq

/-- Comparator used by files.sort((a, b) => a.relativePath.localeCompare(b.relativePath)). -/
def fileLe (a b : CollectedFile) : Bool := decide (a.relativePath ≤ b.relativePath)

/-- collectConfigFiles: filter blocked globMatches, read and hash each survivor,
sort by relative path, and combine the per-file lines into one hash; the empty
collection hashes to the empty string. -/
def collectConfigFiles (configDir : String) (globMatches : List String) (blocked : String → Bool)
    (content : String → String) : CollectionResult :=
  let files := (globMatches.filter fun m => !blocked m).map fun m =>
    { relativePath := m, content := content m, hash := hashContent (content m) : CollectedFile }
  let sorted := files.mergeSort fileLe
  { files := sorted,
    combinedHash :=
      if sorted.length > 0 then
        hashContent (String.intercalate "\n" (sorted.map fun f => f.relativePath ++ ":" ++ f.hash))
      else "",
    configDir := configDir }

/-- The combined-hash formula exactly as the design document words it: the hash
of the concatenation of "relativePath:contentHash
" (one trailing newline per entry) over the sorted sequence. Stated from the
document for comparison with the implementation above. -/
def specConcatHash (files : List CollectedFile) : String :=
  hashContent (String.join (files.map fun f => f.relativePath ++ ":" ++ f.hash ++ "\n"))

/-- The combined-hash formula the implementation actually uses, stated over an
arbitrary file list: newline-joined entries without a trailing newline, and the
empty string for an empty list. -/
def joinHashOfFiles (files : List CollectedFile) : String :=
  if files.length > 0 then
    hashContent (String.intercalate "\n" (files.map fun f => f.relativePath ++ ":" ++ f.hash))
  else ""

structure ProviderCollectionResult where
  providerId : String
  files : List CollectedFile
  combinedHash : String
  configDir : String
deriving DecidableEq

/-- Comparator for the plain JS Array.prototype.sort over strings. -/
def strLe (a b : String) : Bool := decide (a ≤ b)

/-- The combined-hash computation of collectFromProviders: entries with a
truthy (nonempty) per-provider hash are rendered as "id:hash", sorted, joined
with newlines and hashed; no entries gives the empty string. The input list is
the provider results Map in iteration order. -/
def collectFromProvidersHash (results : List (String × ProviderCollectionResult)) : String :=
  let allHashes := results.filterMap fun p =>
    if p.2.combinedHash ≠ "" then some (p.1 ++ ":" ++ p.2.combinedHash) else none
  let sorted := allHashes.mergeSort strLe
  if sorted.length > 0 then hashContent (String.intercalate "\n" sorted) else ""

/-- The top-level combined-hash formula exactly as the design document words
it: the hash of the sorted list of "providerId:snapshotHash" strings over all
providers, with no filtering. Stated from the document for comparison. -/
def specTopHash (results : List (String × ProviderCollectionResult)) : String :=
  hashContent (String.intercalate "\n"
    ((results.map fun p => p.1 ++ ":" ++ p.2.combinedHash).mergeSort strLe))

/-- The top-level combined hash as the implementation computes it, restated
independently: providers with an empty snapshot hash are dropped before
sorting, and the result is the empty string when none remain. -/
def specTopHashFiltered (results : List (String × ProviderCollectionResult)) : String :=
  let entries := (results.filter fun p => p.2.combinedHash ≠ "").map fun p =>
    p.1 ++ ":" ++ p.2.combinedHash
  if entries.length > 0 then hashContent (String.intercalate "\n" (entries.mergeSort strLe))
  else ""

/-! ## Payload and state data model (src/providers/types.ts, src/storage/state.ts) -/

structure MCPServerConfig where
  name : String
  type : String
  command : Option String
  args : Option (List String)
  env : Option (List (String × String))
  url : Option String
  headers : Option (List (String × String))
  cwd : Option String
  enabled : Option Bool
deriving DecidableEq

structure PayloadFile where
  path : String
  content : String
deriving DecidableEq

structure ProviderFilesData where
  files : List PayloadFile
  hash : String
deriving DecidableEq

structure ContextItem where
  id : String
  name : String
  summary : String
  createdAt : String
  project : Option String
deriving DecidableEq

structure ContextsSection where
  items : List ContextItem
  hash : Option String
deriving DecidableEq

structure MetaSection where
  version : Nat
  updatedAt : String
  source : String
deriving DecidableEq

/-- A decrypted sync payload as the dynamic JSON document the readers branch
on: the V1 part (config) and the V2 parts (providers, mcpServers) are both
optional, and meta.version is the runtime discriminator, exactly as in the
SyncPayloadV1 or SyncPayloadV2 union of src/providers/types.ts. -/
structure PayloadDoc where
  meta : MetaSection
  config : Option ProviderFilesData
  providers : List (String × ProviderFilesData)
  mcpServers : Option (List MCPServerConfig)
  contexts : ContextsSection
deriving DecidableEq

/-- isPayloadV2 from src/providers/types.ts. -/
def isPayloadV2 (p : PayloadDoc) : Bool := p.meta.version == 2

/-- isPayloadV1 from src/providers/types.ts. -/
def isPayloadV1 (p : PayloadDoc) : Bool := p.meta.version == 1

/-- SyncState from src/storage/state.ts. -/
structure SyncState where
  lastSync : Option String
  gistId : Option String
  configHash : Option String
  contextsHash : Option String
  version : Nat
deriving DecidableEq

/-- recordSync from src/storage/state.ts: updateSyncState overwrites every
field except version with the values of this sync; now stands for the
new Date().toISOString() timestamp. -/
def recordSync (_current : SyncState) (now gid configHash : String)
    (contextsHash : Option String) : SyncState :=
  { lastSync := some now, gistId := some gid, configHash := some configHash,
    contextsHash := contextsHash, version := 1 }

structure AuthInfo where
  githubToken : String
  passphrase : String
  gistId : Option String
deriving DecidableEq

/-! ## Push commands (src/cli/commands/push.ts and the multi-provider rewrite)

Both push commands are modelled as state-machine functions over the already
collected snapshot: payload assembly and encryption are pure local steps that
touch neither SyncState nor the network, so the model keeps the control flow
that decides which of those effects happen. The single remote write
(updateGist or createGist) is an Except-valued input; the Nat in the result
counts remote write calls performed. -/

inductive PushOutcome where
  | notConfigured | noFiles | noChanges | uploadFailed | pushed
deriving DecidableEq

structure MultiCollectionResult where
  results : List (String × ProviderCollectionResult)
  combinedHash : String
deriving DecidableEq

/-- The single-provider pushCommand of src/cli/commands/push.ts: exit when not
configured or nothing collected; compare both hashes against the stored
SyncState and stop with no network traffic when neither changed and force is
not set; otherwise upload and record the new state only after the upload
succeeded. -/
def pushCommandV1 (auth : Option AuthInfo) (collection : CollectionResult)
    (contextsHash : Option String) (force : Bool) (state : SyncState)
    (remote : Except String String) (now : String) :
    PushOutcome × SyncState × Nat :=
  match auth with
  | none => (.notConfigured, state, 0)
  | some _ =>
    if collection.files.length == 0 then (.noFiles, state, 0)
    else
      let hasConfigChanges := state.configHash != some collection.combinedHash
      let hasContextChanges := state.contextsHash != contextsHash
      if !hasConfigChanges && !hasContextChanges && !force then (.noChanges, state, 0)
      else
        match remote with
        | .error _ => (.uploadFailed, state, 1)
        | .ok gid => (.pushed, recordSync state now gid collection.combinedHash contextsHash, 1)

/-- The multi-provider pushCommand (the V2 rewrite): exit when not configured
or nothing collected, then always encrypt and upload; the force option is
accepted but never consulted and no comparison against SyncState happens. -/
def pushCommandV2 (auth : Option AuthInfo) (collection : MultiCollectionResult)
    (contextsHash : Option String) (_force : Bool) (state : SyncState)
    (remote : Except String String) (now : String) :
    PushOutcome × SyncState × Nat :=
  match auth with
  | none => (.notConfigured, state, 0)
  | some _ =>
    if collection.results.length == 0 then (.noFiles, state, 0)
    else
      match remote with
      | .error _ => (.uploadFailed, state, 1)
      | .ok gid => (.pushed, recordSync state now gid collection.combinedHash contextsHash, 1)

/-! ## Multi-provider pull command (the unnamed CLI pull with conflict
detection and a confirmation gate) -/

/-- One entry of the filesToPull list: a remote file tagged with the provider
it belongs to. -/
structure PullFileTagged where
  path : String
  content : String
  provider : Option String
deriving DecidableEq

/-- Assemble filesToPull: a V1 payload contributes its config files tagged
opencode (a V1 document missing its config section would crash the dynamic
reader and is modelled as contributing nothing); a V2 payload contributes, for
every requested provider present in the providers mapping, its files tagged
with that provider id; other versions contribute nothing. -/
def pullFilesToPull (providerIds : List String) (payload : PayloadDoc) :
    List PullFileTagged :=
  if payload.meta.version == 1 then
    match payload.config with
    | some cfg => cfg.files.map fun f => { path := f.path, content := f.content, provider := some "opencode" }
    | none => []
  else if payload.meta.version == 2 then
    providerIds.flatMap fun pid =>
      match lookupAssoc payload.providers pid with
      | some data => data.files.map fun f => { path := f.path, content := f.content, provider := some pid }
      | none => []
  else []

/-- The conflict scan of the multi-provider pull: a file is a conflict when its
provider is known, the local file at configDir/path exists, and its content
differs from the remote content. fsRead returns the file content when the path
exists (existsSync plus readFileSync). -/
def pullConflicts (providerIds : List String) (payload : PayloadDoc)
    (configDirOf : String → Option String) (fsRead : String → Option String) :
    List PullFileTagged :=
  (pullFilesToPull providerIds payload).filter fun f =>
    match f.provider with
    | none => false
    | some pid =>
      match configDirOf pid with
      | none => false
      | some dir =>
        match fsRead (dir ++ "/" ++ f.path) with
        | some localContent => localContent != f.content
        | none => false

/-- The local writes the pull performs once allowed to proceed: each pulled
file with a known provider is written to configDir/path; unknown providers are
skipped. -/
def pullWrites (providerIds : List String) (payload : PayloadDoc)
    (configDirOf : String → Option String) : List (String × String) :=
  (pullFilesToPull providerIds payload).filterMap fun f =>
    match f.provider with
    | none => none
    | some pid =>
      match configDirOf pid with
      | none => none
      | some dir => some (dir ++ "/" ++ f.path, f.content)

inductive PullOutcome where
  | notConfigured | noGistId | fetchFailed | noSyncFile | decryptFailed | noFiles
  | cancelled | writeFailed | saveContextsFailed | completed
deriving DecidableEq

/-- The external world one pull invocation runs against: the credential store,
the composite outcome of fetching the gist and decrypting its sync file
(network error, file missing, wrong passphrase, or the decrypted payload), the
local filesystem, the point at which a local write throws if any, whether
saving the context store succeeds, and the platform JSON serialization used to
recompute the contexts hash. -/
structure PullWorld where
  auth : Option AuthInfo
  fetched : Except String (Option (Except String PayloadDoc))
  configDirOf : String → Option String
  fsRead : String → Option String
  writeFailIdx : Option Nat
  saveContextsOk : Bool
  ctxSerialize : List ContextItem → String

/-- The multi-provider pullCommand: exit paths for missing credentials or gist
id, fetch or decrypt failure, and an empty pull set; the conflict gate asks for
confirmation unless force is set and cancels with zero writes when declined;
otherwise it writes all pulled files, replaces the context store, and records
SyncState only after everything succeeded (the recorded config hash is the V1
payload hash, or empty for V2; the contexts hash is recomputed from the
freshly written list). The last component is the list of file writes
performed. -/
def pullCommandMulti (providerIds : List String) (force proceed : Bool) (world : PullWorld)
    (state : SyncState) (now : String) :
    PullOutcome × SyncState × List (String × String) :=
  match world.auth with
  | none => (.notConfigured, state, [])
  | some auth =>
    match auth.gistId with
    | none => (.noGistId, state, [])
    | some gid =>
      match world.fetched with
      | .error _ => (.fetchFailed, state, [])
      | .ok none => (.noSyncFile, state, [])
      | .ok (some (.error _)) => (.decryptFailed, state, [])
      | .ok (some (.ok payload)) =>
        let filesToPull := pullFilesToPull providerIds payload
        if filesToPull.length == 0 then (.noFiles, state, [])
        else
          let conflicts := pullConflicts providerIds payload world.configDirOf world.fsRead
          if conflicts.length > 0 && !force && !proceed then (.cancelled, state, [])
          else
            let writes := pullWrites providerIds payload world.configDirOf
            match world.writeFailIdx with
            | some i =>
              if i < writes.length then (.writeFailed, state, writes.take i)
              else
                if world.saveContextsOk then
                  let ctx := payload.contexts.items
                  let configHash := if payload.meta.version == 1 then
                    (payload.config.map fun c => c.hash).getD "" else ""
                  let ctxHash := if ctx.length > 0 then
                    some (hashContent (world.ctxSerialize ctx)) else none
                  (.completed, recordSync state now gid configHash ctxHash, writes)
                else (.saveContextsFailed, state, writes)
            | none =>
              if world.saveContextsOk then
                let ctx := payload.contexts.items
                let configHash := if payload.meta.version == 1 then
                  (payload.config.map fun c => c.hash).getD "" else ""
                let ctxHash := if ctx.length > 0 then
                  some (hashContent (world.ctxSerialize ctx)) else none
                (.completed, recordSync state now gid configHash ctxHash, writes)
              else (.saveContextsFailed, state, writes)

/-! ## V1 versus V2 handling in the apply phase of src/cli/commands/pull.ts -/

/-- The observable effects of the apply phase of src/cli/commands/pull.ts. -/
structure PullSrcEffects where
  mcpWritten : Option (List MCPServerConfig)
  applied : List (String × List PayloadFile)
  contextsSaved : List ContextItem
  recordedConfigHash : String
deriving DecidableEq

/-- The apply phase of src/cli/commands/pull.ts: a V2 payload writes the
shared mcp file when present, applies the files of every requested provider
found in the providers mapping (and registered with hasProvider), and saves
the remote contexts; every other version falls back to the V1 branch, which
applies config.files to the opencode provider regardless of the requested
subset and saves the remote contexts. recordSync receives the V1 config hash,
or the empty string for V2. -/
def pullSrcApplyPhase (providerIds : List String) (hasProvider : String → Bool)
    (payload : PayloadDoc) : PullSrcEffects :=
  if isPayloadV2 payload then
    { mcpWritten := payload.mcpServers,
      applied := providerIds.filterMap fun pid =>
        match lookupAssoc payload.providers pid with
        | some data => if hasProvider pid then some (pid, data.files) else none
        | none => none,
      contextsSaved := payload.contexts.items,
      recordedConfigHash := "" }
  else
    { mcpWritten := none,
      applied :=
        match payload.config with
        | some cfg => if hasProvider "opencode" then [("opencode", cfg.files)] else []
        | none => [],
      contextsSaved := payload.contexts.items,
      recordedConfigHash := (payload.config.map fun c => c.hash).getD "" }

/-! ## Apply (ClaudeCodeProvider.applyFiles) and the shared mcp file write

JSON documents are modelled by a small value tree; the platform JSON.parse and
JSON.stringify stay abstract as parameters where raw text crosses the
boundary. -/

inductive JVal where
  | null
  | bool (b : Bool)
  | num (n : Int)
  | str (s : String)
  | arr (items : List JVal)
  | obj (fields : List (String × JVal))

/-- JS property read on a parsed JSON value: objects look keys up, everything
else yields undefined (none); reading a property of null throws and is handled
separately at the call sites. -/
def jGetField : JVal → String → Option JVal
  | .obj fields, k => lookupAssoc fields k
  | _, _ => none

/-- JS truthiness of a JSON value. -/
def jTruthy : JVal → Bool
  | .null => false
  | .bool b => b
  | .num n => n != 0
  | .str s => s != ""
  | .arr _ => true
  | .obj _ => true

/-- The local state a Claude provider apply runs against: the file tree under
the config root keyed by full path, and the raw text of the home-level
.claude.json when it exists. -/
structure ClaudeLocal where
  tree : List (String × String)
  rootDoc : Option String

/-- Apply a single incoming file, mirroring the loop body of
ClaudeCodeProvider.applyFiles. A regular file is written under
configDir/relativePath (directory creation is implicit in the map model). The
.claude.json entry is special: the existing document is parsed (a missing or
unparseable file starts from an empty object), the incoming content is parsed
(a parse failure skips the file, and an incoming null would throw on property
access and also skips it), and when the incoming document carries a truthy
mcpServers member, only that member is replaced in the existing object, which
is then re-serialized; an existing document that is not an object would throw
on property assignment and the file is skipped. -/
def applyClaudeOne (parseDoc : String → Option JVal) (printDoc : JVal → String)
    (configDir : String) (st : ClaudeLocal) (f : CollectedFile) : ClaudeLocal :=
  if f.relativePath == ".claude.json" then
    let existingParsed : JVal :=
      match st.rootDoc with
      | some s => match parseDoc s with | some v => v | none => .obj []
      | none => .obj []
    match parseDoc f.content with
    | none => st
    | some .null => st
    | some synced =>
      match jGetField synced "mcpServers" with
      | some v =>
        if jTruthy v then
          match existingParsed with
          | .obj fields =>
            { st with rootDoc := some (printDoc (.obj (setAssoc fields "mcpServers" v))) }
          | _ => st
        else { st with rootDoc := some (printDoc existingParsed) }
      | none => { st with rootDoc := some (printDoc existingParsed) }
  else { st with tree := setAssoc st.tree (configDir ++ "/" ++ f.relativePath) f.content }

/-- ClaudeCodeProvider.applyFiles: fold the per-file step over the incoming
list; nothing is ever deleted. -/
def applyFilesClaude (parseDoc : String → Option JVal) (printDoc : JVal → String)
    (configDir : String) (files : List CollectedFile) (st : ClaudeLocal) : ClaudeLocal :=
  files.foldl (applyClaudeOne parseDoc printDoc configDir) st

/-- The per-server JSON object the pull writes into the shared mcp file,
mirroring the serverConfig construction: type always, the optional string
members only when truthy, args and env and headers when present, and
disabled: true exactly when enabled is false. -/
def serverConfigJson (s : MCPServerConfig) : JVal :=
  .obj ([("type", .str s.type)]
    ++ (match s.command with | some c => if c != "" then [("command", JVal.str c)] else [] | none => [])
    ++ (match s.args with | some a => [("args", JVal.arr (a.map JVal.str))] | none => [])
    ++ (match s.env with | some e => [("env", JVal.obj (e.map fun p => (p.1, JVal.str p.2)))] | none => [])
    ++ (match s.url with | some u => if u != "" then [("url", JVal.str u)] else [] | none => [])
    ++ (match s.headers with | some h => [("headers", JVal.obj (h.map fun p => (p.1, JVal.str p.2)))] | none => [])
    ++ (match s.cwd with | some c => if c != "" then [("cwd", JVal.str c)] else [] | none => [])
    ++ (if s.enabled == some false then [("disabled", JVal.bool true)] else []))

/-- The full document the pull writes to the home-level .mcp.json: a fresh
object holding only the mcpServers mapping rebuilt from the payload, written
over whatever was there before. -/
def mcpPullDoc (servers : List MCPServerConfig) : JVal :=
  .obj [("mcpServers", .obj (servers.map fun s => (s.name, serverConfigJson s)))]

/-! ## Session context store (src/storage/contexts.ts)

Summaries are strings, as in the source. The truncation of addContext goes
through Buffer for the byte length and the byte-level cut (utf8Enc, List.take,
then the lenient decode back to a string, so a character split by the cut
becomes the replacement character), and the sentence-boundary search afterwards
works on the decoded string with UTF-16 code-unit indices, as the source does. -/

def MAX_CONTEXTS : Nat := 20

def MAX_CONTEXT_SIZE : Nat := 20480

/-- The marker appended to a truncated summary. -/
def truncMarkerStr : String := "\n\n[Truncated due to size limit]"

structure SessionContextB where
  id : String
  name : String
  summary : String
  createdAt : String
  sessionId : Option String
  project : Option String
  size : Nat
deriving DecidableEq

structure ContextsStorageB where
  contexts : List SessionContextB
  version : Nat
deriving DecidableEq

/-- The number of UTF-16 code units a character occupies in a JS string: one
for the basic plane, two (a surrogate pair) beyond it. -/
def utf16Len (c : Char) : Nat := if c.toNat < 65536 then 1 else 2

/-- String.prototype.length of a JS string given as its characters: the number
of UTF-16 code units. -/
def utf16Length (l : List Char) : Nat := (l.map utf16Len).sum

/-- Scan helper for lastIndexOf: pos is the UTF-16 offset of the current
character position, and the latest match wins. -/
def lastIndexOfUtf16Go : List Char → List Char → Nat → Option Nat
  | [], _, _ => none
  | c :: rest, sub, pos =>
      match lastIndexOfUtf16Go rest sub (pos + utf16Len c) with
      | some j => some j
      | none => if listStartsWith (c :: rest) sub then some pos else none

/-- The UTF-16 code-unit index of the last occurrence of sub in l, as
String.prototype.lastIndexOf; none stands for the -1 of a missed search (the
call site only compares it against a bound, which -1 never exceeds). -/
def lastIndexOfUtf16 (l sub : List Char) : Option Nat := lastIndexOfUtf16Go l sub 0

/-- The prefix of a character list spanning the first k UTF-16 code units, as
String.prototype.substring(0, k); the call site always cuts right after a
one-unit character, so the cut never lands inside a surrogate pair. -/
def utf16Take : List Char → Nat → List Char
  | [], _ => []
  | c :: rest, k => if utf16Len c ≤ k then c :: utf16Take rest (k - utf16Len c) else []

/-- The truncation step of addContext: a summary above MAX_CONTEXT_SIZE UTF-8
bytes is cut at that byte count and decoded back leniently, as
Buffer.from(summary, "utf8").subarray(0, MAX_CONTEXT_SIZE).toString("utf8"),
then preferably shortened to the last sentence boundary ". " past the midpoint
(UTF-16 indices), and the truncation marker is appended. -/
def truncateSummary (summary : String) : String :=
  if (utf8Enc summary).length > MAX_CONTEXT_SIZE then
    let t := utf8DecStr ((utf8Enc summary).take MAX_CONTEXT_SIZE)
    let t2 :=
      match lastIndexOfUtf16 t.data ['.', ' '] with
      | some i => if i > utf16Length t.data / 2 then utf16Take t.data (i + 1) else t.data
      | none => t.data
    String.mk t2 ++ truncMarkerStr
  else summary

/-- addContext from src/storage/contexts.ts as a pure transformer of the
loaded storage: truncate the summary when oversized, build the new context
(generateId and the timestamp are the newId and createdAt inputs), prepend it,
and cut the list back to MAX_CONTEXTS entries before saving; the stored size
is Buffer.byteLength of the truncated summary. Returns the saved storage and
the new context. -/
def addContext (storage : ContextsStorageB) (name summary : String)
    (newId createdAt : String) (sessionId project : Option String) :
    ContextsStorageB × SessionContextB :=
  let ts := truncateSummary summary
  let ctx : SessionContextB :=
    { id := newId, name := name, summary := ts, createdAt := createdAt,
      sessionId := sessionId, project := project, size := (utf8Enc ts).length }
  let l := ctx :: storage.contexts
  let l2 := if l.length > MAX_CONTEXTS then l.take MAX_CONTEXTS else l
  ({ contexts := l2, version := 1 }, ctx)

/-- A summary of 20479 ASCII characters followed by one two-byte character
(U+00E9): 20481 UTF-8 bytes, so the 20480-byte cut of truncateSummary splits
the final character. -/
def oversizedSummary : String := String.mk (List.replicate 20479 'a' ++ [Char.ofNat 233])

/-! ## Concrete instantiations of the abstract platform primitives, used to
exhibit the crypto theorems at explicit inputs. -/

/-- A minimal cipher instantiation: an all-zero keystream and a constant tag.
It satisfies the length and byte-range contracts of the real primitives. -/
def toyPrim : CryptoPrim where
  deriveKey := fun _ _ => 0
  keystream := fun _ _ n => List.replicate n 0
  authTag := fun _ _ _ => [0]

/-- An injective stand-in for PBKDF2: a pairing of codes of the passphrase
bytes and the salt. -/
def toyKdf (p : String) (s : List Nat) : Nat :=
  Nat.pair (Encodable.encode (utf8Enc p)) (Encodable.encode s)

/-- An injective bounded-byte stand-in for the GCM tag: base-256 digits of a
pairing of the key and the codes of the IV and ciphertext. -/
def toyTag (k : Nat) (iv c : List Nat) : List Nat :=
  Nat.digits 256 (Nat.pair k (Nat.pair (Encodable.encode iv) (Encodable.encode c)))

/-- A cipher instantiation whose key derivation is injective in the passphrase
and whose tag is injective in key, IV and ciphertext, modelling the
collision-freeness idealization of PBKDF2 and GHASH. -/
def toyPrimInj : CryptoPrim where
  deriveKey := toyKdf
  keystream := fun _ _ n => List.replicate n 0
  authTag := toyTag

/-! # Verified properties

Helper lemmas first, then one theorem per examined claim together with its
counterexample or concrete witness. -/

theorem lookupAssoc_setAssoc_self (l : List (String × α)) (k : String) (v : α) :
    lookupAssoc (setAssoc l k v) k = some v := by
  induction l with
  | nil => simp [setAssoc, lookupAssoc]
  | cons p t ih =>
      by_cases h : p.1 == k
      · simp [setAssoc, h, lookupAssoc]
      · simpa [setAssoc, h, lookupAssoc] using ih

theorem lookupAssoc_setAssoc_ne (l : List (String × α)) (k k2 : String) (v : α)
    (h : k2 ≠ k) : lookupAssoc (setAssoc l k v) k2 = lookupAssoc l k2 := by
  induction l with
  | nil =>
      have hne : (k == k2) = false := by simpa using Ne.symm h
      simp [setAssoc, lookupAssoc, hne]
  | cons p t ih =>
      by_cases hp : p.1 == k
      · have hpk : p.1 = k := by simpa using hp
        by_cases hq : p.1 == k2
        · exact absurd (by simpa [hpk] using hq) (Ne.symm h)
        · simp [setAssoc, hp, lookupAssoc, hq, hpk, h.symm]
      · by_cases hq : p.1 == k2
        · simp [setAssoc, hp, lookupAssoc, hq]
        · simpa [setAssoc, hp, lookupAssoc, hq] using ih

/-- Two sorted lists that are permutations of each other and whose key-equal
elements coincide are equal; this pins down the result of sorting
independently of the enumeration order fed to it. -/
theorem eq_of_key_sorted_perm (key : α → String) :
    ∀ (l₁ l₂ : List α), l₁.Perm l₂ →
      l₁.Pairwise (fun a b => key a ≤ key b) → l₂.Pairwise (fun a b => key a ≤ key b) →
      (∀ a ∈ l₁, ∀ b ∈ l₂, key a = key b → a = b) → l₁ = l₂
  | [], l₂, h, _, _, _ => (h.symm.eq_nil).symm ▸ rfl
  | a :: t, [], h, _, _, _ => absurd h.eq_nil (by simp)
  | a :: t, b :: t₂, h, s₁, s₂, hk => by
      have hab : a = b := by
        have hbmem : b ∈ a :: t := h.symm.subset (List.mem_cons_self b t₂)
        have hamem : a ∈ b :: t₂ := h.subset (List.mem_cons_self a t)
        rcases List.mem_cons.mp hbmem with hba | hbt
        · exact hba.symm
        · rcases List.mem_cons.mp hamem with hab | hat
          · exact hab
          · have h1 : key a ≤ key b := (List.rel_of_pairwise_cons s₁) hbt
            have h2 : key b ≤ key a := (List.rel_of_pairwise_cons s₂) hat
            exact hk a (List.mem_cons_self a t) b (List.mem_cons_self b t₂) (le_antisymm h1 h2)
      subst hab
      have ht : t.Perm t₂ := h.cons_inv
      have := eq_of_key_sorted_perm key t t₂ ht (List.Pairwise.of_cons s₁)
        (List.Pairwise.of_cons s₂)
        (fun x hx y hy => hk x (List.mem_cons_of_mem a hx) y (List.mem_cons_of_mem a hy))
      rw [this]

/-- Sorting a one-element list returns it unchanged. -/
theorem mergeSort_single (le : α → α → Bool) (a : α) : List.mergeSort [a] le = [a] :=
  List.perm_singleton.mp (List.mergeSort_perm [a] le)

theorem xorBytes_cancel : ∀ (a b : List Nat), a.length ≤ b.length →
    xorBytes (xorBytes a b) b = a
  | [], _, _ => rfl
  | x :: xs, [], h => absurd h (by simp)
  | x :: xs, y :: ys, h => by
      have := xorBytes_cancel xs ys (by simpa using h)
      simp [xorBytes] at this ⊢
      exact ⟨Nat.xor_cancel_right y x, this⟩

theorem mem_xorBytes_lt : ∀ (a b : List Nat), (∀ u ∈ a, u < 256) → (∀ v ∈ b, v < 256) →
    ∀ x ∈ xorBytes a b, x < 256
  | [], _, _, _ => by simp [xorBytes]
  | _ :: _, [], _, _ => by simp [xorBytes]
  | x :: xs, y :: ys, ha, hb => by
      intro z hz
      rcases List.mem_cons.mp hz with hz1 | hz2
      · subst hz1
        exact Nat.xor_lt_two_pow (n := 8) (ha x (by simp)) (hb y (by simp))
      · exact mem_xorBytes_lt xs ys (fun u hu => ha u (by simp [hu]))
          (fun v hv => hb v (by simp [hv])) z hz2

theorem xorBytes_length (a b : List Nat) : (xorBytes a b).length = min a.length b.length := by
  simp [xorBytes]

theorem b64v_b64c : ∀ n < 64, b64v (b64c n) = n := by decide

theorem b64c_ne_pad : ∀ n < 64, (b64c n == '=') = false := by decide

theorem b64DecGo_encGo : ∀ l : List Nat, (∀ b ∈ l, b < 256) →
    b64DecGo (b64EncGo l) = l
  | [], _ => rfl
  | [b0], h => by
      have hb0 : b0 < 256 := h b0 (by simp)
      simp only [b64EncGo, b64DecGo]
      rw [if_pos (by simp)]
      rw [b64v_b64c _ (by omega), b64v_b64c _ (by omega)]
      congr 1
      omega
  | [b0, b1], h => by
      have hb0 : b0 < 256 := h b0 (by simp)
      have hb1 : b1 < 256 := h b1 (by simp)
      simp only [b64EncGo, b64DecGo]
      rw [if_neg (by rw [b64c_ne_pad _ (by omega)]; simp), if_pos (by simp)]
      rw [b64v_b64c _ (by omega), b64v_b64c _ (by omega), b64v_b64c _ (by omega)]
      congr 1
      · omega
      · congr 1
        omega
  | b0 :: b1 :: b2 :: rest, h => by
      have hb0 : b0 < 256 := h b0 (by simp)
      have hb1 : b1 < 256 := h b1 (by simp)
      have hb2 : b2 < 256 := h b2 (by simp)
      have ih := b64DecGo_encGo rest
        (fun b hb => h b (by simp [List.mem_cons] at hb ⊢; tauto))
      simp only [b64EncGo, b64DecGo]
      rw [if_neg (by rw [b64c_ne_pad _ (by omega)]; simp),
          if_neg (by rw [b64c_ne_pad _ (by omega)]; simp)]
      rw [b64v_b64c _ (by omega), b64v_b64c _ (by omega), b64v_b64c _ (by omega),
          b64v_b64c _ (by omega)]
      rw [ih]
      congr 1
      · omega
      · congr 1
        · omega
        · congr 1
          omega

theorem b64Dec_b64Enc (l : List Nat) (h : ∀ b ∈ l, b < 256) : b64Dec (b64Enc l) = l := by
  simpa [b64Dec, b64Enc] using b64DecGo_encGo l h

theorem b64Enc_inj (l₁ l₂ : List Nat) (h₁ : ∀ b ∈ l₁, b < 256) (h₂ : ∀ b ∈ l₂, b < 256)
    (h : b64Enc l₁ = b64Enc l₂) : l₁ = l₂ := by
  rw [← b64Dec_b64Enc l₁ h₁, ← b64Dec_b64Enc l₂ h₂, h]

theorem char_toNat_lt (c : Char) : c.toNat < 1114112 := by
  rcases c.valid with h1 | ⟨h2, h3⟩
  · have : c.val.toNat < 55296 := h1
    simp [Char.toNat]
    omega
  · have : c.val.toNat < 1114112 := h3
    simp [Char.toNat]
    omega

theorem mem_utf8EncChar_lt (c : Nat) (hc : c < 1114112) : ∀ b ∈ utf8EncChar c, b < 256 := by
  intro b hb
  by_cases h1 : c < 128
  · simp [utf8EncChar, h1] at hb
    omega
  · by_cases h2 : c < 2048
    · simp [utf8EncChar, h1, h2] at hb
      rcases hb with h | h <;> omega
    · by_cases h3 : c < 65536
      · simp [utf8EncChar, h1, h2, h3] at hb
        rcases hb with h | h | h <;> omega
      · simp [utf8EncChar, h1, h2, h3] at hb
        rcases hb with h | h | h | h <;> omega

theorem utf8EncChar_length_pos (c : Nat) : 1 ≤ (utf8EncChar c).length := by
  by_cases h1 : c < 128 <;> by_cases h2 : c < 2048 <;> by_cases h3 : c < 65536 <;>
    simp [utf8EncChar, h1, h2, h3]

theorem mem_utf8Enc_lt (s : String) : ∀ b ∈ utf8Enc s, b < 256 := by
  intro b hb
  simp only [utf8Enc, List.mem_flatten, List.mem_map] at hb
  rcases hb with ⟨l, ⟨c, _, hcl⟩, hbl⟩
  exact mem_utf8EncChar_lt c.toNat (char_toNat_lt c) b (hcl ▸ hbl)

theorem utf8DecF_encChar (c : Char) (fuel : Nat) (rest : List Nat) :
    utf8DecF (fuel + 1) (utf8EncChar c.toNat ++ rest) = c :: utf8DecF fuel rest := by
  have hv := char_toNat_lt c
  by_cases h1 : c.toNat < 128
  · simp only [utf8EncChar, if_pos h1, List.cons_append, List.nil_append, utf8DecF]
    rw [Char.ofNat_toNat]
  · by_cases h2 : c.toNat < 2048
    · simp only [utf8EncChar, if_neg h1, if_pos h2, List.cons_append, List.nil_append, utf8DecF]
      rw [if_neg (by omega), if_neg (by omega), if_pos (by omega),
          if_pos (by constructor <;> omega)]
      have harg : (192 + c.toNat / 64 - 192) * 64 + (128 + c.toNat % 64 - 128) = c.toNat := by
        omega
      rw [harg, Char.ofNat_toNat]
    · by_cases h3 : c.toNat < 65536
      · simp only [utf8EncChar, if_neg h1, if_neg h2, if_pos h3, List.cons_append,
          List.nil_append, utf8DecF]
        rw [if_neg (by omega), if_neg (by omega), if_neg (by omega), if_pos (by omega),
            if_pos (by refine ⟨⟨?_, ?_⟩, ?_, ?_⟩ <;> omega)]
        have harg : (224 + c.toNat / 4096 - 224) * 4096 + (128 + c.toNat / 64 % 64 - 128) * 64 +
            (128 + c.toNat % 64 - 128) = c.toNat := by
          omega
        rw [harg, Char.ofNat_toNat]
      · simp only [utf8EncChar, if_neg h1, if_neg h2, if_neg h3, List.cons_append,
          List.nil_append, utf8DecF]
        rw [if_neg (by omega), if_neg (by omega), if_neg (by omega), if_neg (by omega),
            if_pos (by omega),
            if_pos (by refine ⟨⟨⟨?_, ?_⟩, ?_, ?_⟩, ?_, ?_⟩ <;> omega)]
        have harg : (240 + c.toNat / 262144 - 240) * 262144 +
            (128 + c.toNat / 4096 % 64 - 128) * 4096 + (128 + c.toNat / 64 % 64 - 128) * 64 +
            (128 + c.toNat % 64 - 128) = c.toNat := by
          omega
        rw [harg, Char.ofNat_toNat]

theorem utf8DecF_enc : ∀ (cs : List Char) (fuel : Nat), cs.length ≤ fuel →
    utf8DecF fuel ((cs.map fun c => utf8EncChar c.toNat).flatten) = cs
  | [], 0, _ => rfl
  | [], _ + 1, _ => rfl
  | c :: t, fuel + 1, h => by
      simp only [List.map_cons, List.flatten_cons]
      rw [utf8DecF_encChar c fuel _]
      rw [utf8DecF_enc t fuel (by simpa using h)]
  | c :: t, 0, h => absurd h (by simp)

theorem length_le_utf8Enc (cs : List Char) :
    cs.length ≤ ((cs.map fun c => utf8EncChar c.toNat).flatten).length := by
  induction cs with
  | nil => simp
  | cons c t ih =>
      simp only [List.map_cons, List.flatten_cons, List.length_append, List.length_cons]
      have := utf8EncChar_length_pos c.toNat
      omega

/-- Decoding is a left inverse of encoding: the byte codec used across the
envelope round trip loses nothing. -/
theorem utf8_roundtrip (s : String) : utf8DecStr (utf8Enc s) = s := by
  have h := utf8DecF_enc s.data (utf8Enc s).length (by simpa [utf8Enc] using length_le_utf8Enc s.data)
  apply String.ext
  simpa [utf8DecStr, utf8Enc] using h

theorem utf8Enc_inj (s₁ s₂ : String) (h : utf8Enc s₁ = utf8Enc s₂) : s₁ = s₂ := by
  rw [← utf8_roundtrip s₁, ← utf8_roundtrip s₂, h]

/-- String-level round trip through the envelope: decrypting with the same
passphrase recovers the plaintext, for any keystream and tag primitive meeting
the byte-level contracts of the real cipher. -/
theorem decrypt_encrypt (pr : CryptoPrim)
    (hlen : ∀ k iv n, (pr.keystream k iv n).length = n)
    (hks : ∀ k iv n, ∀ b ∈ pr.keystream k iv n, b < 256)
    (htag : ∀ k iv c, ∀ b ∈ pr.authTag k iv c, b < 256)
    (pt pass : String) (salt iv : List Nat)
    (hsalt : ∀ b ∈ salt, b < 256) (hiv : ∀ b ∈ iv, b < 256) :
    decrypt pr (encrypt pr pt pass salt iv) pass = .ok pt := by
  have hpt := mem_utf8Enc_lt pt
  have hksb := hks (pr.deriveKey pass salt) iv (utf8Enc pt).length
  have hct := mem_xorBytes_lt (utf8Enc pt)
    (pr.keystream (pr.deriveKey pass salt) iv (utf8Enc pt).length) hpt hksb
  simp only [encrypt, decrypt]
  rw [if_neg (by simp)]
  rw [b64Dec_b64Enc _ hct, b64Dec_b64Enc iv hiv,
      b64Dec_b64Enc _ (htag (pr.deriveKey pass salt) iv _), b64Dec_b64Enc salt hsalt]
  rw [if_pos rfl]
  have hctlen : (xorBytes (utf8Enc pt)
      (pr.keystream (pr.deriveKey pass salt) iv (utf8Enc pt).length)).length =
      (utf8Enc pt).length := by
    rw [xorBytes_length, hlen]
    exact Nat.min_self _
  rw [hctlen]
  rw [xorBytes_cancel _ _ (by rw [hlen])]
  rw [utf8_roundtrip]

/-- Claim C1 (confirmed). Encrypt and decrypt round trip: for every
JSON-serializable payload P (a value whose platform JSON stringify and parse
invert, taken as parameters) and every passphrase K, decrypting the envelope
produced by encryptObject with the same passphrase through decryptObject
yields P. The salt and IV inputs stand for the fresh random bytes drawn inside
encrypt. -/
theorem encryptObject_decryptObject_roundtrip {α : Type} (pr : CryptoPrim)
    (hlen : ∀ k iv n, (pr.keystream k iv n).length = n)
    (hks : ∀ k iv n, ∀ b ∈ pr.keystream k iv n, b < 256)
    (htag : ∀ k iv c, ∀ b ∈ pr.authTag k iv c, b < 256)
    (stringify : α → String) (parse : String → Option α)
    (hparse : ∀ a, parse (stringify a) = some a)
    (P : α) (K : String) (salt iv : List Nat)
    (hsalt : ∀ b ∈ salt, b < 256) (hiv : ∀ b ∈ iv, b < 256) :
    decryptObject pr parse (encryptObject pr stringify P K salt iv) K = .ok P := by
  simp only [encryptObject, decryptObject]
  rw [decrypt_encrypt pr hlen hks htag (stringify P) K salt iv hsalt hiv]
  simp [hparse P]

/-- Concrete witness for C1 at an explicit input, over the minimal cipher
instantiation. -/
theorem encryptObject_decryptObject_roundtrip_witness :
    decryptObject toyPrim some
      (encryptObject toyPrim id "hello world" "pass" [7, 8] [9]) "pass" = .ok "hello world" :=
  encryptObject_decryptObject_roundtrip toyPrim
    (fun _ _ n => List.length_replicate n 0)
    (fun _ _ n b hb => by simp [toyPrim] at hb; omega)
    (fun _ _ _ b hb => by simp [toyPrim] at hb; omega)
    id some (fun _ => rfl) "hello world" "pass" [7, 8] [9]
    (by intro b hb; simp at hb; omega) (by intro b hb; simp at hb; omega)

/-- Claim C2 (confirmed). Decryption failure is the sole passphrase check and
surfaces as a DecryptionError. Under the collision-freeness idealization of
the key derivation (injective in the passphrase) and of the authentication tag
(injective in key, ciphertext and IV, the ideal-MAC reading of GCM):
decrypting with a different passphrase fails with the decryption-failed error
rather than returning any plaintext; the thrown message is classified by
toSyncError as DECRYPTION_FAILED; and altering the ciphertext, tag or IV field
of the envelope makes decryption with the correct passphrase fail the same
way. The only branch of decrypt that can reject a well-formed version-1
envelope is the tag comparison, so this is the single passphrase check. -/
theorem decrypt_failure_modes (pr : CryptoPrim)
    (_hlen : ∀ k iv n, (pr.keystream k iv n).length = n)
    (hks : ∀ k iv n, ∀ b ∈ pr.keystream k iv n, b < 256)
    (htag : ∀ k iv c, ∀ b ∈ pr.authTag k iv c, b < 256)
    (hkdfInj : ∀ s, Function.Injective fun p => pr.deriveKey p s)
    (htagKeyInj : ∀ iv c, Function.Injective fun k => pr.authTag k iv c)
    (htagCtInj : ∀ k iv, Function.Injective (pr.authTag k iv))
    (htagIvInj : ∀ k c, Function.Injective fun iv => pr.authTag k iv c)
    (P K1 K2 : String) (salt iv : List Nat)
    (hsalt : ∀ b ∈ salt, b < 256) (hiv : ∀ b ∈ iv, b < 256) (hK : K1 ≠ K2) :
    decrypt pr (encrypt pr P K1 salt iv) K2 = .error decryptionFailedMsg
    ∧ toSyncErrorCode decryptionFailedMsg = .DECRYPTION_FAILED
    ∧ (∀ ct2, (∀ b ∈ ct2, b < 256) → b64Enc ct2 ≠ (encrypt pr P K1 salt iv).ciphertext →
        decrypt pr { encrypt pr P K1 salt iv with ciphertext := b64Enc ct2 } K1 =
          .error decryptionFailedMsg)
    ∧ (∀ tg2, (∀ b ∈ tg2, b < 256) → b64Enc tg2 ≠ (encrypt pr P K1 salt iv).tag →
        decrypt pr { encrypt pr P K1 salt iv with tag := b64Enc tg2 } K1 =
          .error decryptionFailedMsg)
    ∧ (∀ iv2, (∀ b ∈ iv2, b < 256) → b64Enc iv2 ≠ (encrypt pr P K1 salt iv).iv →
        decrypt pr { encrypt pr P K1 salt iv with iv := b64Enc iv2 } K1 =
          .error decryptionFailedMsg) := by
  have hpt := mem_utf8Enc_lt P
  have hksb := hks (pr.deriveKey K1 salt) iv (utf8Enc P).length
  have hct := mem_xorBytes_lt (utf8Enc P)
    (pr.keystream (pr.deriveKey K1 salt) iv (utf8Enc P).length) hpt hksb
  have htg := htag (pr.deriveKey K1 salt) iv
    (xorBytes (utf8Enc P) (pr.keystream (pr.deriveKey K1 salt) iv (utf8Enc P).length))
  refine ⟨?_, by decide, ?_, ?_, ?_⟩
  · simp only [encrypt, decrypt]
    rw [if_neg (by simp)]
    rw [b64Dec_b64Enc _ hct, b64Dec_b64Enc iv hiv, b64Dec_b64Enc _ htg,
        b64Dec_b64Enc salt hsalt]
    rw [if_neg ?_]
    intro heq
    have hkey := htagKeyInj iv _ heq
    exact hK (hkdfInj salt hkey)
  · intro ct2 hct2 hne
    have hctne : ct2 ≠ xorBytes (utf8Enc P)
        (pr.keystream (pr.deriveKey K1 salt) iv (utf8Enc P).length) := by
      intro hcteq
      exact hne (by simp only [encrypt]; rw [hcteq])
    simp only [encrypt, decrypt]
    rw [if_neg (by simp)]
    rw [b64Dec_b64Enc _ hct2, b64Dec_b64Enc iv hiv, b64Dec_b64Enc _ htg,
        b64Dec_b64Enc salt hsalt]
    rw [if_neg ?_]
    intro heq
    exact hctne (htagCtInj _ iv heq).symm
  · intro tg2 htg2 hne
    have htgne : tg2 ≠ pr.authTag (pr.deriveKey K1 salt) iv
        (xorBytes (utf8Enc P) (pr.keystream (pr.deriveKey K1 salt) iv (utf8Enc P).length)) := by
      intro htgeq
      exact hne (by simp only [encrypt]; rw [htgeq])
    simp only [encrypt, decrypt]
    rw [if_neg (by simp)]
    rw [b64Dec_b64Enc _ hct, b64Dec_b64Enc iv hiv, b64Dec_b64Enc _ htg2,
        b64Dec_b64Enc salt hsalt]
    exact if_neg htgne
  · intro iv2 hiv2 hne
    have hivne : iv2 ≠ iv := by
      intro hiveq
      exact hne (by simp only [encrypt]; rw [hiveq])
    simp only [encrypt, decrypt]
    rw [if_neg (by simp)]
    rw [b64Dec_b64Enc _ hct, b64Dec_b64Enc iv2 hiv2, b64Dec_b64Enc _ htg,
        b64Dec_b64Enc salt hsalt]
    rw [if_neg ?_]
    intro heq
    exact hivne (htagIvInj _ _ heq).symm

theorem toyKdf_inj (s : List Nat) : Function.Injective fun p => toyKdf p s := by
  intro p1 p2 h
  simp only [toyKdf] at h
  have h1 := (Nat.pair_eq_pair.mp h).1
  exact utf8Enc_inj p1 p2 (Encodable.encode_injective h1)

theorem toyTag_key_inj (iv c : List Nat) : Function.Injective fun k => toyTag k iv c := by
  intro k1 k2 h
  simp only [toyTag] at h
  have h2 := congrArg (Nat.ofDigits 256) h
  rw [Nat.ofDigits_digits, Nat.ofDigits_digits] at h2
  exact (Nat.pair_eq_pair.mp h2).1

theorem toyTag_ct_inj (k : Nat) (iv : List Nat) : Function.Injective (toyTag k iv) := by
  intro c1 c2 h
  simp only [toyTag] at h
  have h2 := congrArg (Nat.ofDigits 256) h
  rw [Nat.ofDigits_digits, Nat.ofDigits_digits] at h2
  have h3 := (Nat.pair_eq_pair.mp (Nat.pair_eq_pair.mp h2).2).2
  exact Encodable.encode_injective h3

theorem toyTag_iv_inj (k : Nat) (c : List Nat) : Function.Injective fun iv => toyTag k iv c := by
  intro i1 i2 h
  simp only [toyTag] at h
  have h2 := congrArg (Nat.ofDigits 256) h
  rw [Nat.ofDigits_digits, Nat.ofDigits_digits] at h2
  have h3 := (Nat.pair_eq_pair.mp (Nat.pair_eq_pair.mp h2).2).1
  exact Encodable.encode_injective h3

theorem toyTag_lt (k : Nat) (iv c : List Nat) : ∀ b ∈ toyTag k iv c, b < 256 := by
  intro b hb
  exact Nat.digits_lt_base (by norm_num) hb

/-- Concrete witness for C2: with the injective instantiation, decrypting an
envelope sealed under one passphrase with a different passphrase fails with
the decryption error. -/
theorem decrypt_failure_modes_witness :
    decrypt toyPrimInj (encrypt toyPrimInj "x" "a" [3] [4]) "b" =
      .error decryptionFailedMsg :=
  (decrypt_failure_modes toyPrimInj
    (fun _ _ n => List.length_replicate n 0)
    (fun _ _ n b hb => by simp [toyPrimInj] at hb; omega)
    (fun k iv c => toyTag_lt k iv c)
    (fun s => toyKdf_inj s)
    (fun iv c => toyTag_key_inj iv c)
    (fun k iv => toyTag_ct_inj k iv)
    (fun k c => toyTag_iv_inj k c)
    "x" "a" "b" [3] [4]
    (by intro b hb; simp at hb; omega)
    (by intro b hb; simp at hb; omega)
    (by decide)).1

theorem fileLe_trans : ∀ a b c, fileLe a b = true → fileLe b c = true → fileLe a c = true := by
  intro a b c h1 h2
  simp only [fileLe, decide_eq_true_eq] at h1 h2 ⊢
  exact le_trans h1 h2

theorem fileLe_total : ∀ a b, (fileLe a b || fileLe b a) = true := by
  intro a b
  simp only [fileLe, Bool.or_eq_true, decide_eq_true_eq]
  exact le_total _ _

theorem strLe_trans : ∀ a b c : String, strLe a b = true → strLe b c = true → strLe a c = true := by
  intro a b c h1 h2
  simp only [strLe, decide_eq_true_eq] at h1 h2 ⊢
  exact le_trans h1 h2

theorem strLe_total : ∀ a b : String, (strLe a b || strLe b a) = true := by
  intro a b
  simp only [strLe, Bool.or_eq_true, decide_eq_true_eq]
  exact le_total _ _

/-- Every file record a collection produces is determined by its relative
path: its content is what the filesystem holds there and its hash is the
content hash of that text. -/
theorem mem_collect_files (configDir : String) (gm : List String) (blocked : String → Bool)
    (content : String → String) (a : CollectedFile)
    (ha : a ∈ (collectConfigFiles configDir gm blocked content).files) :
    a = { relativePath := a.relativePath, content := content a.relativePath,
          hash := hashContent (content a.relativePath) } := by
  simp only [collectConfigFiles] at ha
  rw [(List.mergeSort_perm _ fileLe).mem_iff] at ha
  rcases List.mem_map.mp ha with ⟨m, _, hma⟩
  cases hma
  rfl

/-- Claim C3 (corrected). The collected file list is sorted by relative path;
the combined hash is the hash of the newline-joined "path:hash" entries of the
sorted list, with the empty string for an empty collection (not the hash of a
concatenation with a trailing newline per entry, see the counterexample); and
collection is deterministic: any two enumeration orders of the same matches
against the same file contents produce the same result. -/
theorem collectConfigFiles_sorted_deterministic (configDir : String) (gm gm2 : List String)
    (blocked : String → Bool) (content : String → String) (hperm : gm.Perm gm2) :
    (collectConfigFiles configDir gm blocked content).files.Pairwise
      (fun a b => a.relativePath ≤ b.relativePath)
    ∧ (collectConfigFiles configDir gm blocked content).combinedHash =
        joinHashOfFiles (collectConfigFiles configDir gm blocked content).files
    ∧ collectConfigFiles configDir gm blocked content =
        collectConfigFiles configDir gm2 blocked content := by
  refine ⟨?_, ?_, ?_⟩
  · have h := List.sorted_mergeSort fileLe_trans fileLe_total
      ((gm.filter fun m => !blocked m).map fun m =>
        { relativePath := m, content := content m, hash := hashContent (content m) : CollectedFile })
    exact h.imp (fun hab => by simpa [fileLe] using hab)
  · rfl
  · have hL : (collectConfigFiles configDir gm blocked content).files =
        (collectConfigFiles configDir gm2 blocked content).files := by
      apply eq_of_key_sorted_perm (fun f : CollectedFile => f.relativePath)
      · simp only [collectConfigFiles]
        exact (List.mergeSort_perm _ fileLe).trans
          (((hperm.filter _).map _).trans (List.mergeSort_perm _ fileLe).symm)
      · have h := List.sorted_mergeSort fileLe_trans fileLe_total
          ((gm.filter fun m => !blocked m).map fun m =>
            { relativePath := m, content := content m, hash := hashContent (content m) :
              CollectedFile })
        exact h.imp (fun hab => by simpa [fileLe] using hab)
      · have h := List.sorted_mergeSort fileLe_trans fileLe_total
          ((gm2.filter fun m => !blocked m).map fun m =>
            { relativePath := m, content := content m, hash := hashContent (content m) :
              CollectedFile })
        exact h.imp (fun hab => by simpa [fileLe] using hab)
      · intro a ha b hb hkey
        have hac := mem_collect_files configDir gm blocked content a ha
        have hbc := mem_collect_files configDir gm2 blocked content b hb
        rw [hac, hbc, hkey]
    simp only [collectConfigFiles] at hL ⊢
    rw [hL]

/-- Counterexample for C3 as stated: for the one-file collection of path "a"
with content "x", the implemented combined hash, which joins entries with
newlines and no trailing newline, differs from the hash of the concatenation
of "path:hash" entries each followed by a newline that the specification
sentence describes. -/
theorem collect_combined_hash_counterexample :
    (collectConfigFiles "d" ["a"] (fun _ => false) (fun _ => "x")).combinedHash ≠
      specConcatHash (collectConfigFiles "d" ["a"] (fun _ => false) (fun _ => "x")).files := by
  have hstep : collectConfigFiles "d" ["a"] (fun _ => false) (fun _ => "x") =
      { files := [{ relativePath := "a", content := "x", hash := hashContent "x" }],
        combinedHash := hashContent ("a" ++ ":" ++ hashContent "x"), configDir := "d" } := by
    simp only [collectConfigFiles]
    rw [show ((["a"].filter fun m => !(fun _ : String => false) m).map fun m =>
      { relativePath := m, content := (fun _ : String => "x") m,
        hash := hashContent ((fun _ : String => "x") m) : CollectedFile }) =
      [{ relativePath := "a", content := "x", hash := hashContent "x" }] from rfl]
    rw [mergeSort_single]
    simp [String.intercalate]
    rfl
  rw [hstep]
  simp only [specConcatHash]
  decide

/-- Concrete witness for C3 at an explicit input: two enumeration orders of
the same two files. -/
theorem collectConfigFiles_sorted_deterministic_witness :
    (collectConfigFiles "d" ["b", "a"] (fun _ => false) (fun _ => "x")).files.Pairwise
      (fun a b => a.relativePath ≤ b.relativePath)
    ∧ (collectConfigFiles "d" ["b", "a"] (fun _ => false) (fun _ => "x")).combinedHash =
        joinHashOfFiles (collectConfigFiles "d" ["b", "a"] (fun _ => false) (fun _ => "x")).files
    ∧ collectConfigFiles "d" ["b", "a"] (fun _ => false) (fun _ => "x") =
        collectConfigFiles "d" ["a", "b"] (fun _ => false) (fun _ => "x") :=
  collectConfigFiles_sorted_deterministic "d" ["b", "a"] ["a", "b"] (fun _ => false)
    (fun _ => "x") (List.Perm.swap "a" "b" [])

/-- Claim C4 (corrected). The top-level combined hash is permutation-invariant
in the provider enumeration order, and it equals the hash of the sorted
"providerId:hash" entries restricted to providers with a nonempty snapshot
hash (an entry with an empty snapshot hash is dropped, see the
counterexample), with the empty string when nothing remains. -/
theorem collectFromProvidersHash_spec (results results2 : List (String × ProviderCollectionResult))
    (hperm : results.Perm results2) :
    collectFromProvidersHash results = specTopHashFiltered results
    ∧ collectFromProvidersHash results = collectFromProvidersHash results2 := by
  constructor
  · have hfm : ∀ l : List (String × ProviderCollectionResult), (l.filterMap fun p =>
        if p.2.combinedHash ≠ "" then some (p.1 ++ ":" ++ p.2.combinedHash) else none) =
        ((l.filter fun p => p.2.combinedHash ≠ "").map fun p =>
          p.1 ++ ":" ++ p.2.combinedHash) := by
      intro l
      induction l with
      | nil => rfl
      | cons p t ih =>
          by_cases hp : p.2.combinedHash = ""
          · simpa [List.filterMap_cons, List.filter_cons, hp] using ih
          · simpa [List.filterMap_cons, List.filter_cons, hp] using ih
    simp only [collectFromProvidersHash, specTopHashFiltered]
    rw [hfm results]
    rw [(List.mergeSort_perm ((results.filter fun p => p.2.combinedHash ≠ "").map fun p =>
      p.1 ++ ":" ++ p.2.combinedHash) strLe).length_eq]
  · have key : ∀ (l1 l2 : List (String × ProviderCollectionResult)), l1.Perm l2 →
        (l1.filterMap fun p =>
          if p.2.combinedHash ≠ "" then some (p.1 ++ ":" ++ p.2.combinedHash) else none).mergeSort
            strLe =
        (l2.filterMap fun p =>
          if p.2.combinedHash ≠ "" then some (p.1 ++ ":" ++ p.2.combinedHash) else none).mergeSort
            strLe := by
      intro l1 l2 hp
      apply eq_of_key_sorted_perm (fun s : String => s)
      · exact (List.mergeSort_perm _ strLe).trans
          ((hp.filterMap _).trans (List.mergeSort_perm _ strLe).symm)
      · exact (List.sorted_mergeSort strLe_trans strLe_total _).imp
          (fun hab => by simpa [strLe] using hab)
      · exact (List.sorted_mergeSort strLe_trans strLe_total _).imp
          (fun hab => by simpa [strLe] using hab)
      · intro a _ b _ hk
        exact hk
    simp only [collectFromProvidersHash]
    rw [key results results2 hperm]

/-- Counterexample for C4 as stated: a single installed provider whose
snapshot is empty has the empty snapshot hash, the implementation drops its
entry and yields the empty string, while the hash of the sorted list of all
"providerId:snapshotHash" strings that the specification sentence describes is
the hash of "opencode:". -/
theorem top_hash_counterexample :
    collectFromProvidersHash [("opencode",
        { providerId := "opencode", files := [], combinedHash := "", configDir := "c" })] ≠
      specTopHash [("opencode",
        { providerId := "opencode", files := [], combinedHash := "", configDir := "c" })] := by
  have h1 : collectFromProvidersHash [("opencode",
      { providerId := "opencode", files := [], combinedHash := "", configDir := "c" })] = "" := by
    simp only [collectFromProvidersHash]
    rw [show (List.filterMap (fun p : String × ProviderCollectionResult =>
      if p.2.combinedHash ≠ "" then some (p.1 ++ ":" ++ p.2.combinedHash) else none)
      [("opencode",
        { providerId := "opencode", files := [], combinedHash := "", configDir := "c" })]) =
      ([] : List String) from rfl]
    rw [(List.mergeSort_perm ([] : List String) strLe).eq_nil]
    rfl
  have h2 : specTopHash [("opencode",
      { providerId := "opencode", files := [], combinedHash := "", configDir := "c" })] =
      hashContent "opencode:" := by
    simp only [specTopHash]
    rw [show (List.map (fun p : String × ProviderCollectionResult =>
      p.1 ++ ":" ++ p.2.combinedHash)
      [("opencode",
        { providerId := "opencode", files := [], combinedHash := "", configDir := "c" })]) =
      ["opencode" ++ ":" ++ ""] from rfl]
    rw [mergeSort_single]
    rfl
  rw [h1, h2]
  decide

/-- Concrete witness for C4: swapping the enumeration order of two providers
leaves the top-level combined hash unchanged. -/
theorem collectFromProvidersHash_spec_witness :
    collectFromProvidersHash
        [("opencode", { providerId := "opencode", files := [], combinedHash := "h1", configDir := "c1" }),
         ("claude-code", { providerId := "claude-code", files := [], combinedHash := "h2", configDir := "c2" })] =
      specTopHashFiltered
        [("opencode", { providerId := "opencode", files := [], combinedHash := "h1", configDir := "c1" }),
         ("claude-code", { providerId := "claude-code", files := [], combinedHash := "h2", configDir := "c2" })]
    ∧ collectFromProvidersHash
        [("opencode", { providerId := "opencode", files := [], combinedHash := "h1", configDir := "c1" }),
         ("claude-code", { providerId := "claude-code", files := [], combinedHash := "h2", configDir := "c2" })] =
      collectFromProvidersHash
        [("claude-code", { providerId := "claude-code", files := [], combinedHash := "h2", configDir := "c2" }),
         ("opencode", { providerId := "opencode", files := [], combinedHash := "h1", configDir := "c1" })] :=
  collectFromProvidersHash_spec _ _ (List.Perm.swap _ _ [])

/-- Claim C5 (confirmed). Pull conflict detection: a pulled file of a known
requested provider that exists locally with differing content is reported as a
conflict; a file that does not exist locally is not a conflict but is still
among the pending writes (a pending create); a file with identical local
content is not a conflict; and when conflicts exist and neither force nor the
user confirmation is given, the pull cancels with no file writes and an
unchanged state. -/
theorem pull_conflict_detection (providerIds : List String) (world : PullWorld)
    (state : SyncState) (now : String) (payload : PayloadDoc)
    (hfetched : world.fetched = .ok (some (.ok payload))) :
    (∀ f ∈ pullFilesToPull providerIds payload, ∀ pid dir localContent,
      f.provider = some pid → world.configDirOf pid = some dir →
      world.fsRead (dir ++ "/" ++ f.path) = some localContent → localContent ≠ f.content →
      f ∈ pullConflicts providerIds payload world.configDirOf world.fsRead)
    ∧ (∀ f ∈ pullFilesToPull providerIds payload, ∀ pid dir,
      f.provider = some pid → world.configDirOf pid = some dir →
      world.fsRead (dir ++ "/" ++ f.path) = none →
      f ∉ pullConflicts providerIds payload world.configDirOf world.fsRead ∧
        (dir ++ "/" ++ f.path, f.content) ∈ pullWrites providerIds payload world.configDirOf)
    ∧ (∀ f ∈ pullFilesToPull providerIds payload, ∀ pid dir,
      f.provider = some pid → world.configDirOf pid = some dir →
      world.fsRead (dir ++ "/" ++ f.path) = some f.content →
      f ∉ pullConflicts providerIds payload world.configDirOf world.fsRead)
    ∧ (pullConflicts providerIds payload world.configDirOf world.fsRead ≠ [] →
      ∀ auth gid, world.auth = some auth → auth.gistId = some gid →
      pullCommandMulti providerIds false false world state now = (.cancelled, state, [])) := by
  refine ⟨?_, ?_, ?_, ?_⟩
  · intro f hf pid dir localContent hprov hdir hread hne
    simp only [pullConflicts]
    rw [List.mem_filter]
    refine ⟨hf, ?_⟩
    rw [hprov]
    simp only [hdir, hread]
    simpa using hne
  · intro f hf pid dir hprov hdir hread
    constructor
    · intro hmem
      rw [pullConflicts, List.mem_filter] at hmem
      rcases hmem with ⟨_, hpred⟩
      rw [hprov] at hpred
      simp only [hdir, hread] at hpred
      exact Bool.false_ne_true hpred
    · rw [pullWrites]
      refine List.mem_filterMap.mpr ⟨f, hf, ?_⟩
      rw [hprov]
      simp [hdir]
  · intro f hf pid dir hprov hdir hread hmem
    rw [pullConflicts, List.mem_filter] at hmem
    rcases hmem with ⟨_, hpred⟩
    rw [hprov] at hpred
    simp only [hdir, hread] at hpred
    simp at hpred
  · intro hconf auth gid hauth hgid
    have hne : pullFilesToPull providerIds payload ≠ [] := by
      intro h
      exact hconf (by simp [pullConflicts, h])
    simp only [pullCommandMulti, hauth, hgid, hfetched]
    have hlen : ((pullFilesToPull providerIds payload).length == 0) = false := by
      simp [List.length_eq_zero, hne]
    rw [if_neg (by simp [hlen])]
    have hgate : (decide (0 < (pullConflicts providerIds payload world.configDirOf
        world.fsRead).length) && !false && !false) = true := by
      simp [List.length_pos, hconf]
    simp only [gt_iff_lt, hgate, if_pos]

/-- Concrete witness for C5: the local file agent/foo.md holds "A", the remote
payload holds "B" for the same path, and the unforced unconfirmed pull cancels
with zero writes. -/
theorem pull_conflict_detection_witness :
    pullCommandMulti ["claude-code"] false false
      { auth := some { githubToken := "t", passphrase := "p", gistId := some "g" },
        fetched := .ok (some (.ok
          { meta := { version := 2, updatedAt := "u", source := "s" },
            config := none,
            providers := [("claude-code",
              { files := [{ path := "agent/foo.md", content := "B" }], hash := "h" })],
            mcpServers := none,
            contexts := { items := [], hash := none } })),
        configDirOf := fun _ => some "/c",
        fsRead := fun p => if p == "/c/agent/foo.md" then some "A" else none,
        writeFailIdx := none, saveContextsOk := true, ctxSerialize := fun _ => "" }
      { lastSync := none, gistId := none, configHash := none, contextsHash := none,
        version := 1 } "now" =
      (.cancelled,
       { lastSync := none, gistId := none, configHash := none, contextsHash := none,
         version := 1 }, []) :=
  (pull_conflict_detection ["claude-code"] _ _ "now" _ rfl).2.2.2 (by decide) _ "g" rfl rfl

/-- Claim C6 (code bug). At an input where the freshly collected combined hash
and the contexts hash both equal the ones recorded in SyncState and force is
off, the single-provider pushCommand short-circuits with a no-changes result,
zero remote writes and an unchanged state, but the multi-provider pushCommand
performs the upload anyway: it never consults SyncState and never reads its
force option, contradicting the documented no-op push. -/
theorem push_no_change_divergence :
    pushCommandV1 (some { githubToken := "t", passphrase := "p", gistId := some "g" })
      { files := [{ relativePath := "opencode.json", content := "x", hash := "h0" }],
        combinedHash := "h", configDir := "c" }
      none false
      { lastSync := some "t0", gistId := some "g", configHash := some "h",
        contextsHash := none, version := 1 }
      (.ok "g") "t1" =
      (.noChanges,
       { lastSync := some "t0", gistId := some "g", configHash := some "h",
         contextsHash := none, version := 1 }, 0)
    ∧ pushCommandV2 (some { githubToken := "t", passphrase := "p", gistId := some "g" })
      { results := [("opencode",
          { providerId := "opencode", files := [], combinedHash := "h", configDir := "c" })],
        combinedHash := "h" }
      none false
      { lastSync := some "t0", gistId := some "g", configHash := some "h",
        contextsHash := none, version := 1 }
      (.ok "g") "t1" =
      (.pushed,
       { lastSync := some "t1", gistId := some "g", configHash := some "h",
         contextsHash := none, version := 1 }, 1) := by
  constructor
  · rfl
  · rfl

theorem pushV1_state_cases (auth : Option AuthInfo) (collection : CollectionResult)
    (contextsHash : Option String) (force : Bool) (state : SyncState)
    (remote : Except String String) (now : String) :
    (pushCommandV1 auth collection contextsHash force state remote now).2.1 = state ∧
        (pushCommandV1 auth collection contextsHash force state remote now).1 ≠ .pushed
    ∨ (pushCommandV1 auth collection contextsHash force state remote now).1 = .pushed ∧
        ∃ gid, remote = .ok gid := by
  simp only [pushCommandV1]
  repeat' split
  all_goals first
    | (left; exact ⟨rfl, by simp⟩)
    | (right; exact ⟨rfl, _, rfl⟩)

theorem pushV2_state_cases (auth : Option AuthInfo) (collection : MultiCollectionResult)
    (contextsHash : Option String) (force : Bool) (state : SyncState)
    (remote : Except String String) (now : String) :
    (pushCommandV2 auth collection contextsHash force state remote now).2.1 = state ∧
        (pushCommandV2 auth collection contextsHash force state remote now).1 ≠ .pushed
    ∨ (pushCommandV2 auth collection contextsHash force state remote now).1 = .pushed ∧
        ∃ gid, remote = .ok gid := by
  simp only [pushCommandV2]
  repeat' split
  all_goals first
    | (left; exact ⟨rfl, by simp⟩)
    | (right; exact ⟨rfl, _, rfl⟩)

theorem pullMulti_state_cases (providerIds : List String) (pforce pproceed : Bool)
    (world : PullWorld) (state : SyncState) (now : String) :
    (pullCommandMulti providerIds pforce pproceed world state now).2.1 = state ∧
        (pullCommandMulti providerIds pforce pproceed world state now).1 ≠ .completed
    ∨ (pullCommandMulti providerIds pforce pproceed world state now).1 = .completed := by
  simp only [pullCommandMulti]
  repeat' split
  all_goals first
    | (left; exact ⟨rfl, by simp⟩)
    | (right; rfl)

/-- Claim C7 (confirmed). SyncState is mutated only after a completed
protocol: on every non-success outcome of either push command or of the
multi-provider pull, the resulting SyncState is exactly the incoming one; and
whenever the state did change, the run was a successful push whose single
remote write succeeded, or a completed pull. -/
theorem syncState_mutated_only_after_success
    (auth : Option AuthInfo) (collection : CollectionResult) (contextsHash : Option String)
    (force : Bool) (state : SyncState) (remote : Except String String) (now : String)
    (collection2 : MultiCollectionResult)
    (providerIds : List String) (pforce pproceed : Bool) (world : PullWorld)
    (state2 : SyncState) (now2 : String) :
    ((pushCommandV1 auth collection contextsHash force state remote now).1 ≠ .pushed →
      (pushCommandV1 auth collection contextsHash force state remote now).2.1 = state)
    ∧ ((pushCommandV1 auth collection contextsHash force state remote now).2.1 ≠ state →
      (pushCommandV1 auth collection contextsHash force state remote now).1 = .pushed ∧
        ∃ gid, remote = .ok gid)
    ∧ ((pushCommandV2 auth collection2 contextsHash force state remote now).1 ≠ .pushed →
      (pushCommandV2 auth collection2 contextsHash force state remote now).2.1 = state)
    ∧ ((pushCommandV2 auth collection2 contextsHash force state remote now).2.1 ≠ state →
      (pushCommandV2 auth collection2 contextsHash force state remote now).1 = .pushed ∧
        ∃ gid, remote = .ok gid)
    ∧ ((pullCommandMulti providerIds pforce pproceed world state2 now2).1 ≠ .completed →
      (pullCommandMulti providerIds pforce pproceed world state2 now2).2.1 = state2)
    ∧ ((pullCommandMulti providerIds pforce pproceed world state2 now2).2.1 ≠ state2 →
      (pullCommandMulti providerIds pforce pproceed world state2 now2).1 = .completed) := by
  have h1 := pushV1_state_cases auth collection contextsHash force state remote now
  have h2 := pushV2_state_cases auth collection2 contextsHash force state remote now
  have h3 := pullMulti_state_cases providerIds pforce pproceed world state2 now2
  refine ⟨?_, ?_, ?_, ?_, ?_, ?_⟩
  · intro hout
    rcases h1 with ⟨hs, _⟩ | ⟨hp, _⟩
    · exact hs
    · exact absurd hp hout
  · intro hst
    rcases h1 with ⟨hs, _⟩ | ⟨hp, hg⟩
    · exact absurd hs hst
    · exact ⟨hp, hg⟩
  · intro hout
    rcases h2 with ⟨hs, _⟩ | ⟨hp, _⟩
    · exact hs
    · exact absurd hp hout
  · intro hst
    rcases h2 with ⟨hs, _⟩ | ⟨hp, hg⟩
    · exact absurd hs hst
    · exact ⟨hp, hg⟩
  · intro hout
    rcases h3 with ⟨hs, _⟩ | hp
    · exact hs
    · exact absurd hp hout
  · intro hst
    rcases h3 with ⟨hs, _⟩ | hp
    · exact absurd hs hst
    · exact hp

/-- Concrete witness for C7: a push whose upload fails leaves the state
untouched. -/
theorem syncState_mutated_only_after_success_witness :
    (pushCommandV1 (some { githubToken := "t", passphrase := "p", gistId := some "g" })
      { files := [{ relativePath := "a", content := "x", hash := "h0" }],
        combinedHash := "h", configDir := "c" }
      none false
      { lastSync := none, gistId := none, configHash := none, contextsHash := none,
        version := 1 }
      (.error "network down") "t1").2.1 =
      { lastSync := none, gistId := none, configHash := none, contextsHash := none,
        version := 1 } :=
  (syncState_mutated_only_after_success
    (some { githubToken := "t", passphrase := "p", gistId := some "g" })
    { files := [{ relativePath := "a", content := "x", hash := "h0" }],
      combinedHash := "h", configDir := "c" }
    none false
    { lastSync := none, gistId := none, configHash := none, contextsHash := none,
      version := 1 }
    (.error "network down") "t1"
    { results := [], combinedHash := "" } [] false false
    { auth := none, fetched := .error "e", configDirOf := fun _ => none,
      fsRead := fun _ => none, writeFailIdx := none, saveContextsOk := true,
      ctxSerialize := fun _ => "" }
    { lastSync := none, gistId := none, configHash := none, contextsHash := none,
      version := 1 } "t2").1 (by decide)

theorem filterMap_eq_single {β : Type} (ids : List String) (k : String) (v : Option β)
    (hnd : ids.Nodup) (hm : k ∈ ids) :
    ids.filterMap (fun pid => if pid = k then v else none) = v.toList := by
  induction ids with
  | nil => cases hm
  | cons a t ih =>
      by_cases hak : a = k
      · subst hak
        have hknt : a ∉ t := (List.nodup_cons.mp hnd).1
        have ht : t.filterMap (fun pid => if pid = a then v else none) = [] := by
          rw [List.filterMap_eq_nil_iff]
          intro x hx
          have hxa : x ≠ a := by
            intro hxa
            exact hknt (hxa ▸ hx)
          rw [if_neg hxa]
        cases hv : v with
        | none => simp [List.filterMap_cons, hv ▸ ht, hv]
        | some b => simp [List.filterMap_cons, hv ▸ ht, hv]
      · have hmt : k ∈ t := by
          rcases List.mem_cons.mp hm with h | h
          · exact absurd h.symm hak
          · exact h
        simp only [List.filterMap_cons, if_neg hak]
        exact ih (List.nodup_cons.mp hnd).2 hmt

/-- Claim C8 (corrected). A V1 payload with config files F is read by the
apply phase of the pull identically to a V2 payload holding the single
provider opencode with files F, provided opencode is among the requested
providers, which is the default selection: the same files go to the same
provider, the same contexts are saved, and neither writes the shared mcp file.
When opencode is excluded from the requested subset the two differ, because
the V1 branch ignores the subset (see the counterexample). -/
theorem pull_v1_reads_as_v2 (ids : List String) (hasProvider : String → Bool)
    (F : List PayloadFile) (h1 h2 : String) (ctx : ContextsSection) (u1 s1 u2 s2 : String)
    (hnd : ids.Nodup) (hmem : "opencode" ∈ ids) :
    (pullSrcApplyPhase ids hasProvider
      { meta := { version := 1, updatedAt := u1, source := s1 },
        config := some { files := F, hash := h1 },
        providers := [], mcpServers := none, contexts := ctx }).applied =
      (pullSrcApplyPhase ids hasProvider
        { meta := { version := 2, updatedAt := u2, source := s2 }, config := none,
          providers := [("opencode", { files := F, hash := h2 })], mcpServers := none,
          contexts := ctx }).applied
    ∧ (pullSrcApplyPhase ids hasProvider
      { meta := { version := 1, updatedAt := u1, source := s1 },
        config := some { files := F, hash := h1 },
        providers := [], mcpServers := none, contexts := ctx }).contextsSaved =
      (pullSrcApplyPhase ids hasProvider
        { meta := { version := 2, updatedAt := u2, source := s2 }, config := none,
          providers := [("opencode", { files := F, hash := h2 })], mcpServers := none,
          contexts := ctx }).contextsSaved
    ∧ (pullSrcApplyPhase ids hasProvider
      { meta := { version := 1, updatedAt := u1, source := s1 },
        config := some { files := F, hash := h1 },
        providers := [], mcpServers := none, contexts := ctx }).mcpWritten =
      (pullSrcApplyPhase ids hasProvider
        { meta := { version := 2, updatedAt := u2, source := s2 }, config := none,
          providers := [("opencode", { files := F, hash := h2 })], mcpServers := none,
          contexts := ctx }).mcpWritten := by
  have happ : (ids.filterMap fun pid =>
      match lookupAssoc [("opencode", { files := F, hash := h2 : ProviderFilesData })] pid with
      | some data => if hasProvider pid then some (pid, data.files) else none
      | none => none) =
      (if hasProvider "opencode" then
        some (("opencode" : String), F) else none).toList := by
    have hcongr : ∀ pid ∈ ids, (match lookupAssoc
        [("opencode", { files := F, hash := h2 : ProviderFilesData })] pid with
        | some data => if hasProvider pid then some (pid, data.files) else none
        | none => none) =
        (fun pid => if pid = "opencode" then
          (if hasProvider "opencode" then some (("opencode" : String), F) else none)
          else none) pid := by
      intro pid _
      by_cases hp : pid = "opencode"
      · subst hp
        simp [lookupAssoc]
      · have : (("opencode" : String) == pid) = false := by
          simp [Ne.symm hp]
        simp [lookupAssoc, this, hp]
    rw [List.filterMap_congr hcongr]
    exact filterMap_eq_single ids "opencode" _ hnd hmem
  refine ⟨?_, rfl, rfl⟩
  have e1 : (pullSrcApplyPhase ids hasProvider
      { meta := { version := 1, updatedAt := u1, source := s1 },
        config := some { files := F, hash := h1 },
        providers := [], mcpServers := none, contexts := ctx }).applied =
      (if hasProvider "opencode" = true then [(("opencode" : String), F)] else []) := rfl
  have e2 : (pullSrcApplyPhase ids hasProvider
      { meta := { version := 2, updatedAt := u2, source := s2 }, config := none,
        providers := [("opencode", { files := F, hash := h2 })], mcpServers := none,
        contexts := ctx }).applied =
      (if hasProvider "opencode" = true then
        some (("opencode" : String), F) else none).toList := happ
  rw [e1, e2]
  by_cases hh : hasProvider "opencode" = true
  · simp [hh]
  · simp [hh]

/-- Counterexample for C8 as stated: when only claude-code is requested, a V1
payload still applies its files to opencode while the equivalent
single-provider V2 payload applies nothing, so the two payloads are not
processed identically on every pull invocation. -/
theorem pull_v1_v2_divergence :
    (pullSrcApplyPhase ["claude-code"] (fun _ => true)
      { meta := { version := 1, updatedAt := "u", source := "s" },
        config := some { files := [{ path := "opencode.json", content := "c" }], hash := "h" },
        providers := [], mcpServers := none,
        contexts := { items := [], hash := none } }).applied ≠
      (pullSrcApplyPhase ["claude-code"] (fun _ => true)
        { meta := { version := 2, updatedAt := "u", source := "s" }, config := none,
          providers := [("opencode",
            { files := [{ path := "opencode.json", content := "c" }], hash := "h" })],
          mcpServers := none, contexts := { items := [], hash := none } }).applied := by
  decide

/-- Concrete witness for C8 with the default provider selection, which
includes opencode. -/
theorem pull_v1_reads_as_v2_witness :
    (pullSrcApplyPhase ["claude-code", "opencode"] (fun _ => true)
      { meta := { version := 1, updatedAt := "u1", source := "s1" },
        config := some { files := [{ path := "opencode.json", content := "c" }], hash := "h1" },
        providers := [], mcpServers := none,
        contexts := { items := [], hash := none } }).applied =
      (pullSrcApplyPhase ["claude-code", "opencode"] (fun _ => true)
        { meta := { version := 2, updatedAt := "u2", source := "s2" }, config := none,
          providers := [("opencode",
            { files := [{ path := "opencode.json", content := "c" }], hash := "h2" })],
          mcpServers := none, contexts := { items := [], hash := none } }).applied :=
  (pull_v1_reads_as_v2 ["claude-code", "opencode"] (fun _ => true)
    [{ path := "opencode.json", content := "c" }] "h1" "h2"
    { items := [], hash := none } "u1" "s1" "u2" "s2"
    (by decide) (by decide)).1

/-- A single apply step only ever touches the tree entry of its own target
path; the special .claude.json step does not touch the tree at all. -/
theorem applyClaudeOne_tree_frame (parseDoc : String → Option JVal) (printDoc : JVal → String)
    (configDir : String) (st : ClaudeLocal) (f : CollectedFile) (p : String)
    (hne : configDir ++ "/" ++ f.relativePath ≠ p) :
    lookupAssoc (applyClaudeOne parseDoc printDoc configDir st f).tree p =
      lookupAssoc st.tree p := by
  by_cases hcl : (f.relativePath == ".claude.json") = true
  · simp only [applyClaudeOne, hcl, if_pos]
    repeat' split
    all_goals rfl
  · simp only [applyClaudeOne, hcl, Bool.false_eq_true, if_false]
    exact lookupAssoc_setAssoc_ne st.tree (configDir ++ "/" ++ f.relativePath) p f.content
      (Ne.symm hne)

/-- Claim C9 (corrected). Apply is additive: folding an incoming file list
over the local state never deletes, every path outside the incoming write set
keeps its value, and each incoming regular file lands at
configDir/relativePath; the home-level .claude.json is merged, with only the
mcpServers member replaced and every sibling key preserved. The shared
.mcp.json that the pull writes, however, is rebuilt from the payload alone:
the written document carries only the mcpServers key, so sibling keys of an
existing .mcp.json are not preserved (see the counterexample). -/
theorem applyFiles_additive_and_merge (parseDoc : String → Option JVal)
    (printDoc : JVal → String) (configDir : String) :
    (∀ (files : List CollectedFile) (st : ClaudeLocal) (p : String),
      (∀ f ∈ files, configDir ++ "/" ++ f.relativePath ≠ p) →
      lookupAssoc (applyFilesClaude parseDoc printDoc configDir files st).tree p =
        lookupAssoc st.tree p)
    ∧ (∀ (st : ClaudeLocal) (f : CollectedFile), (f.relativePath == ".claude.json") = false →
      lookupAssoc (applyClaudeOne parseDoc printDoc configDir st f).tree
        (configDir ++ "/" ++ f.relativePath) = some f.content)
    ∧ (∀ (st : ClaudeLocal) (s c : String) (fields sfields : List (String × JVal)) (v : JVal)
        (hsh : String),
      st.rootDoc = some s → parseDoc s = some (.obj fields) →
      parseDoc c = some (.obj sfields) → lookupAssoc sfields "mcpServers" = some v →
      jTruthy v = true →
      (applyClaudeOne parseDoc printDoc configDir st
        { relativePath := ".claude.json", content := c, hash := hsh }).rootDoc =
        some (printDoc (.obj (setAssoc fields "mcpServers" v))) ∧
      lookupAssoc (setAssoc fields "mcpServers" v) "mcpServers" = some v ∧
      (∀ k, k ≠ "mcpServers" → lookupAssoc (setAssoc fields "mcpServers" v) k =
        lookupAssoc fields k))
    ∧ (∀ (servers : List MCPServerConfig) (k : String), k ≠ "mcpServers" →
      jGetField (mcpPullDoc servers) k = none) := by
  refine ⟨?_, ?_, ?_, ?_⟩
  · intro files
    induction files with
    | nil => intro st p _; rfl
    | cons f t ih =>
        intro st p hp
        have hstep := applyClaudeOne_tree_frame parseDoc printDoc configDir st f p
          (hp f (List.mem_cons_self f t))
        have hrest := ih (applyClaudeOne parseDoc printDoc configDir st f) p
          (fun g hg => hp g (List.mem_cons_of_mem f hg))
        calc lookupAssoc (applyFilesClaude parseDoc printDoc configDir (f :: t) st).tree p
            = lookupAssoc (applyFilesClaude parseDoc printDoc configDir t
                (applyClaudeOne parseDoc printDoc configDir st f)).tree p := rfl
          _ = lookupAssoc (applyClaudeOne parseDoc printDoc configDir st f).tree p := hrest
          _ = lookupAssoc st.tree p := hstep
  · intro st f hcl
    simp only [applyClaudeOne, hcl, Bool.false_eq_true, if_false]
    exact lookupAssoc_setAssoc_self st.tree (configDir ++ "/" ++ f.relativePath) f.content
  · intro st s c fields sfields v hsh hroot hps hpc hlook htru
    refine ⟨?_, lookupAssoc_setAssoc_self fields "mcpServers" v, ?_⟩
    · simp only [applyClaudeOne, hroot, hps, hpc]
      rw [show jGetField (JVal.obj sfields) "mcpServers" = some v from hlook]
      simp [htru]
    · intro k hk
      exact lookupAssoc_setAssoc_ne fields "mcpServers" k v hk
  · intro servers k hk
    simp only [mcpPullDoc, jGetField, lookupAssoc, List.find?]
    have : (("mcpServers" : String) == k) = false := by
      simpa using Ne.symm hk
    simp [this]

/-- Counterexample for C9 as stated: after a pull, the shared .mcp.json
document is exactly one mcpServers mapping rebuilt from the payload; a sibling
key such as theme that an existing local .mcp.json held is absent from the
written document rather than preserved. -/
theorem mcp_pull_doc_drops_siblings :
    jGetField (mcpPullDoc [⟨"srv", "stdio", some "run", none, none, none, none, none, none⟩])
      "theme" = none
    ∧ jGetField (JVal.obj [("theme", JVal.str "dark"),
        ("mcpServers", JVal.obj [])]) "theme" = some (JVal.str "dark") := by
  constructor
  · rfl
  · rfl

/-- Concrete witness for C9: a two-file apply writes both files, leaves an
unrelated path untouched, and the merged root document keeps sibling keys. -/
theorem applyFiles_additive_and_merge_witness :
    lookupAssoc (applyFilesClaude (fun _ => none) (fun _ => "") "/claude"
      [{ relativePath := "agents/a.md", content := "A", hash := "h1" },
       { relativePath := "commands/b.md", content := "B", hash := "h2" }]
      { tree := [("/claude/settings.json", "S")], rootDoc := none }).tree
      "/claude/settings.json" = some "S" :=
  (applyFiles_additive_and_merge (fun _ => none) (fun _ => "") "/claude").1
    [{ relativePath := "agents/a.md", content := "A", hash := "h1" },
     { relativePath := "commands/b.md", content := "B", hash := "h2" }]
    { tree := [("/claude/settings.json", "S")], rootDoc := none }
    "/claude/settings.json" (by decide)

theorem utf8EncL_append (a b : List Char) : utf8EncL (a ++ b) = utf8EncL a ++ utf8EncL b := by
  simp [utf8EncL]

theorem utf8DecF_truncChar (c : Char) (fuel k : Nat) (hk1 : 1 ≤ k)
    (hk2 : k < (utf8EncChar c.toNat).length) :
    utf8DecF (fuel + 1) ((utf8EncChar c.toNat).take k) = [replChar] := by
  have hv := char_toNat_lt c
  by_cases h1 : c.toNat < 128
  · have he : utf8EncChar c.toNat = [c.toNat] := by simp [utf8EncChar, h1]
    rw [he] at hk2
    simp at hk2
    omega
  · by_cases h2 : c.toNat < 2048
    · have he : utf8EncChar c.toNat = [192 + c.toNat / 64, 128 + c.toNat % 64] := by
        simp [utf8EncChar, h1, h2]
      rw [he] at hk2 ⊢
      simp at hk2
      have hke : k = 1 := by omega
      subst hke
      show utf8DecF (fuel + 1) [192 + c.toNat / 64] = [replChar]
      simp only [utf8DecF]
      rw [if_neg (by omega), if_neg (by omega), if_pos (by omega)]
    · by_cases h3 : c.toNat < 65536
      · have he : utf8EncChar c.toNat =
            [224 + c.toNat / 4096, 128 + c.toNat / 64 % 64, 128 + c.toNat % 64] := by
          simp [utf8EncChar, h1, h2, h3]
        rw [he] at hk2 ⊢
        simp at hk2
        have hke : k = 1 ∨ k = 2 := by omega
        rcases hke with hke | hke <;> subst hke
        · show utf8DecF (fuel + 1) [224 + c.toNat / 4096] = [replChar]
          simp only [utf8DecF]
          rw [if_neg (by omega), if_neg (by omega), if_neg (by omega), if_pos (by omega)]
        · show utf8DecF (fuel + 1) [224 + c.toNat / 4096, 128 + c.toNat / 64 % 64] = [replChar]
          simp only [utf8DecF]
          rw [if_neg (by omega), if_neg (by omega), if_neg (by omega), if_pos (by omega),
              if_pos (by constructor <;> omega)]
      · have he : utf8EncChar c.toNat =
            [240 + c.toNat / 262144, 128 + c.toNat / 4096 % 64,
             128 + c.toNat / 64 % 64, 128 + c.toNat % 64] := by
          simp [utf8EncChar, h1, h2, h3]
        rw [he] at hk2 ⊢
        simp at hk2
        have hke : k = 1 ∨ k = 2 ∨ k = 3 := by omega
        rcases hke with hke | hke | hke <;> subst hke
        · show utf8DecF (fuel + 1) [240 + c.toNat / 262144] = [replChar]
          simp only [utf8DecF]
          rw [if_neg (by omega), if_neg (by omega), if_neg (by omega), if_neg (by omega),
              if_pos (by omega)]
        · show utf8DecF (fuel + 1) [240 + c.toNat / 262144, 128 + c.toNat / 4096 % 64] = [replChar]
          simp only [utf8DecF]
          rw [if_neg (by omega), if_neg (by omega), if_neg (by omega), if_neg (by omega),
              if_pos (by omega), if_pos (by constructor <;> omega)]
        · show utf8DecF (fuel + 1)
              [240 + c.toNat / 262144, 128 + c.toNat / 4096 % 64, 128 + c.toNat / 64 % 64] =
              [replChar]
          simp only [utf8DecF]
          rw [if_neg (by omega), if_neg (by omega), if_neg (by omega), if_neg (by omega),
              if_pos (by omega), if_pos (by refine ⟨⟨?_, ?_⟩, ?_, ?_⟩ <;> omega)]

theorem utf8DecF_encPartial : ∀ (pre : List Char) (c : Char) (k fuel : Nat),
    1 ≤ k → k < (utf8EncChar c.toNat).length → pre.length + 1 ≤ fuel →
    utf8DecF fuel (utf8EncL pre ++ (utf8EncChar c.toNat).take k) = pre ++ [replChar]
  | [], c, k, fuel, hk1, hk2, hf => by
      cases fuel with
      | zero => exact absurd hf (by omega)
      | succ f => simpa [utf8EncL] using utf8DecF_truncChar c f k hk1 hk2
  | ch :: tl, c, k, fuel, hk1, hk2, hf => by
      cases fuel with
      | zero => exact absurd hf (by simp at hf)
      | succ f =>
          have hassoc : utf8EncL (ch :: tl) ++ (utf8EncChar c.toNat).take k =
              utf8EncChar ch.toNat ++ (utf8EncL tl ++ (utf8EncChar c.toNat).take k) := by
            simp [utf8EncL]
          rw [hassoc, utf8DecF_encChar ch f _,
              utf8DecF_encPartial tl c k f hk1 hk2 (by simpa using hf)]
          rfl

theorem take_utf8EncL : ∀ (cs : List Char) (N : Nat),
    (utf8EncL cs).take N = utf8EncL cs
    ∨ ∃ (pre : List Char) (c : Char) (k : Nat),
        k < (utf8EncChar c.toNat).length ∧
        (utf8EncL cs).take N = utf8EncL pre ++ (utf8EncChar c.toNat).take k ∧
        N = (utf8EncL pre).length + k
  | [], N => by left; simp [utf8EncL]
  | ch :: tl, N => by
      have hcons : utf8EncL (ch :: tl) = utf8EncChar ch.toNat ++ utf8EncL tl := by
        simp [utf8EncL]
      by_cases hN : (utf8EncChar ch.toNat).length ≤ N
      · have hsplit : (utf8EncL (ch :: tl)).take N =
            utf8EncChar ch.toNat ++ (utf8EncL tl).take (N - (utf8EncChar ch.toNat).length) := by
          rw [hcons, List.take_append_eq_append_take, List.take_of_length_le hN]
        rcases take_utf8EncL tl (N - (utf8EncChar ch.toNat).length) with
          hA | ⟨pre, c, k, hk, heq, hNeq⟩
        · left
          rw [hsplit, hA, hcons]
        · right
          refine ⟨ch :: pre, c, k, hk, ?_, ?_⟩
          · rw [hsplit, heq]
            simp [utf8EncL]
          · have hlen : (utf8EncL (ch :: pre)).length =
                (utf8EncChar ch.toNat).length + (utf8EncL pre).length := by
              simp [utf8EncL]
            omega
      · right
        refine ⟨[], ch, N, by omega, ?_, by simp [utf8EncL]⟩
        rw [hcons, List.take_append_eq_append_take]
        have h0 : N - (utf8EncChar ch.toNat).length = 0 := by omega
        rw [h0]
        simp [utf8EncL]

theorem utf8_truncation_bound (s : String) (N : Nat) :
    (utf8Enc (utf8DecStr ((utf8Enc s).take N))).length ≤ N + 2 := by
  have henc : utf8Enc s = utf8EncL s.data := rfl
  rcases take_utf8EncL s.data N with hA | ⟨pre, c, k, hk, heq, hNeq⟩
  · rw [henc, hA, ← henc, utf8_roundtrip]
    have h2 := congrArg List.length hA
    rw [List.length_take] at h2
    rw [henc]
    omega
  · rw [henc, heq]
    by_cases hk1 : 1 ≤ k
    · have hfl : pre.length + 1 ≤ (utf8EncL pre ++ (utf8EncChar c.toNat).take k).length := by
        rw [List.length_append]
        have hp := length_le_utf8Enc pre
        have h2 : (List.take k (utf8EncChar c.toNat)).length = k := by
          rw [List.length_take]
          omega
        simp only [utf8EncL]
        omega
      unfold utf8DecStr
      rw [utf8DecF_encPartial pre c k _ hk1 hk hfl]
      have hb : utf8Enc ⟨pre ++ [replChar]⟩ = utf8EncL pre ++ utf8EncChar replChar.toNat := by
        show utf8EncL (pre ++ [replChar]) = _
        rw [utf8EncL_append]
        simp [utf8EncL]
      rw [hb, List.length_append]
      have hr : (utf8EncChar replChar.toNat).length = 3 := by decide
      rw [hr]
      omega
    · have hk0 : k = 0 := by omega
      subst hk0
      rw [List.take_zero, List.append_nil]
      unfold utf8DecStr
      have hdec : utf8DecF (utf8EncL pre).length (utf8EncL pre) = pre := by
        have h0 := utf8DecF_enc pre (utf8EncL pre).length
          (by simpa [utf8EncL] using length_le_utf8Enc pre)
        simpa [utf8EncL] using h0
      rw [hdec]
      have hpe : utf8Enc ⟨pre⟩ = utf8EncL pre := rfl
      rw [hpe]
      omega

theorem utf16Take_eq_take : ∀ (l : List Char) (k : Nat), ∃ m, utf16Take l k = l.take m
  | [], _ => ⟨0, rfl⟩
  | c :: rest, k => by
      by_cases h : utf16Len c ≤ k
      · rcases utf16Take_eq_take rest (k - utf16Len c) with ⟨m, hm⟩
        exact ⟨m + 1, by simp [utf16Take, h, hm]⟩
      · exact ⟨0, by simp [utf16Take, h]⟩

theorem utf8EncL_take_le : ∀ (l : List Char) (m : Nat),
    (utf8EncL (l.take m)).length ≤ (utf8EncL l).length
  | [], _ => by simp
  | _ :: _, 0 => by simp [utf8EncL]
  | c :: rest, m + 1 => by
      rw [List.take_succ_cons]
      have h1 : utf8EncL (c :: rest.take m) = utf8EncChar c.toNat ++ utf8EncL (rest.take m) := by
        simp [utf8EncL]
      have h2 : utf8EncL (c :: rest) = utf8EncChar c.toNat ++ utf8EncL rest := by
        simp [utf8EncL]
      rw [h1, h2]
      simp only [List.length_append]
      have h3 := utf8EncL_take_le rest m
      omega

theorem lastIndexOfUtf16Go_none : ∀ (l : List Char) (c0 : Char) (sub : List Char) (pos : Nat),
    (∀ ch ∈ l, ch ≠ c0) → lastIndexOfUtf16Go l (c0 :: sub) pos = none
  | [], _, _, _, _ => rfl
  | c :: rest, c0, sub, pos, h => by
      have hr := lastIndexOfUtf16Go_none rest c0 sub (pos + utf16Len c)
        (fun ch hch => h ch (List.mem_cons_of_mem c hch))
      have hc : c ≠ c0 := h c (List.mem_cons_self c rest)
      have hs : listStartsWith (c :: rest) (c0 :: sub) = false := by
        simp [listStartsWith, hc]
      simp [lastIndexOfUtf16Go, hr, hs]

theorem truncateSummary_size_le (summary : String) :
    (utf8Enc (truncateSummary summary)).length ≤
      MAX_CONTEXT_SIZE + 2 + (utf8Enc truncMarkerStr).length := by
  have hbase := utf8_truncation_bound summary MAX_CONTEXT_SIZE
  have happ : ∀ t2 : List Char, (utf8Enc (String.mk t2 ++ truncMarkerStr)).length =
      (utf8EncL t2).length + (utf8Enc truncMarkerStr).length := by
    intro t2
    have h0 : utf8Enc (String.mk t2 ++ truncMarkerStr) =
        utf8EncL t2 ++ utf8EncL truncMarkerStr.data := by
      show utf8EncL (t2 ++ truncMarkerStr.data) = _
      exact utf8EncL_append t2 truncMarkerStr.data
    rw [h0, List.length_append]
    rfl
  have ht : ∀ t2 : List Char,
      (∃ m, t2 = (utf8DecStr ((utf8Enc summary).take MAX_CONTEXT_SIZE)).data.take m) →
      (utf8EncL t2).length + (utf8Enc truncMarkerStr).length ≤
        MAX_CONTEXT_SIZE + 2 + (utf8Enc truncMarkerStr).length := by
    rintro t2 ⟨m, rfl⟩
    have h1 := utf8EncL_take_le (utf8DecStr ((utf8Enc summary).take MAX_CONTEXT_SIZE)).data m
    have h2 : (utf8EncL (utf8DecStr ((utf8Enc summary).take MAX_CONTEXT_SIZE)).data).length =
        (utf8Enc (utf8DecStr ((utf8Enc summary).take MAX_CONTEXT_SIZE))).length := rfl
    omega
  simp only [truncateSummary]
  split
  · rw [happ]
    split
    · split
      · exact ht _ (utf16Take_eq_take _ _)
      · exact ht _ ⟨_, (List.take_length _).symm⟩
    · exact ht _ ⟨_, (List.take_length _).symm⟩
  · next h => omega


theorem utf8EncL_replicate_a (n : Nat) :
    utf8EncL (List.replicate n 'a') = List.replicate n 97 := by
  induction n with
  | zero => rfl
  | succ n ih =>
      rw [List.replicate_succ, List.replicate_succ,
        show utf8EncL ('a' :: List.replicate n 'a') =
          97 :: utf8EncL (List.replicate n 'a') from rfl, ih]

/-- Claim C10 (corrected). Every addContext call saves exactly the new context
prepended to the previous list and cut to MAX_CONTEXTS entries: the persisted
list never exceeds 20 entries, the new context sits at the front (so the drop
happens at the oldest end), and the stored summary never exceeds
MAX_CONTEXT_SIZE bytes plus two bytes (the worst-case growth when the byte cut
splits a multibyte character, whose remains re-encode as the three-byte
replacement character) plus the fixed truncation marker. -/
theorem addContext_spec (storage : ContextsStorageB) (name summary : String)
    (newId createdAt : String) (sessionId project : Option String) :
    (addContext storage name summary newId createdAt sessionId project).1.contexts =
      ((addContext storage name summary newId createdAt sessionId project).2 ::
        storage.contexts).take MAX_CONTEXTS
    ∧ (addContext storage name summary newId createdAt sessionId project).1.contexts.length ≤
        MAX_CONTEXTS
    ∧ (addContext storage name summary newId createdAt sessionId project).1.contexts.head? =
        some (addContext storage name summary newId createdAt sessionId project).2
    ∧ (utf8Enc (addContext storage name summary newId createdAt
        sessionId project).2.summary).length ≤
        MAX_CONTEXT_SIZE + 2 + (utf8Enc truncMarkerStr).length := by
  have hpart1 : (addContext storage name summary newId createdAt sessionId project).1.contexts =
      ((addContext storage name summary newId createdAt sessionId project).2 ::
        storage.contexts).take MAX_CONTEXTS := by
    simp only [addContext]
    by_cases h : storage.contexts.length + 1 > MAX_CONTEXTS
    · rw [if_pos (by simpa using h)]
    · rw [if_neg (by simpa using h)]
      rw [List.take_of_length_le (by simp; omega)]
  refine ⟨hpart1, ?_, ?_, truncateSummary_size_le summary⟩
  · rw [hpart1]
    exact List.length_take_le MAX_CONTEXTS _
  · rw [hpart1]
    rw [show MAX_CONTEXTS = 19 + 1 from rfl, List.take_succ_cons]
    rfl

/-- The encoding of the oversized summary: 20479 ASCII bytes then the two
bytes of U+00E9. -/
theorem oversizedSummary_enc :
    utf8Enc oversizedSummary = List.replicate 20479 97 ++ [195, 169] := by
  show utf8EncL (List.replicate 20479 'a' ++ [Char.ofNat 233]) = _
  rw [utf8EncL_append, utf8EncL_replicate_a]
  rfl

/-- The 20480-byte cut keeps only the lead byte of the final character. -/
theorem oversizedSummary_take :
    (utf8Enc oversizedSummary).take MAX_CONTEXT_SIZE = List.replicate 20479 97 ++ [195] := by
  rw [oversizedSummary_enc, List.take_append_eq_append_take,
      List.take_of_length_le (l := List.replicate 20479 (97 : Nat))
        (by rw [List.length_replicate]; decide),
      show MAX_CONTEXT_SIZE - (List.replicate 20479 (97 : Nat)).length = 1 by
        rw [List.length_replicate]; decide]
  rfl

/-- Lenient decoding of the cut bytes: the ASCII characters come back and the
orphan lead byte becomes one replacement character. -/
theorem oversizedSummary_dec :
    utf8DecStr (List.replicate 20479 (97 : Nat) ++ [195]) =
      String.mk (List.replicate 20479 'a' ++ [replChar]) := by
  have hparts := utf8DecF_encPartial (List.replicate 20479 'a') (Char.ofNat 233) 1
    (List.replicate 20479 (97 : Nat) ++ [195]).length (by omega) (by decide)
    (by rw [List.length_append, List.length_replicate, List.length_replicate,
          show List.length [(195 : Nat)] = 1 from rfl])
  rw [utf8EncL_replicate_a,
      show (utf8EncChar (Char.ofNat 233).toNat).take 1 = [195] from by decide] at hparts
  unfold utf8DecStr
  rw [hparts]

/-- The decoded cut contains no period, so the sentence-boundary search of
truncateSummary misses. -/
theorem oversizedSummary_noPeriod :
    lastIndexOfUtf16 (String.mk (List.replicate 20479 'a' ++ [replChar])).data
      ['.', ' '] = none := by
  show lastIndexOfUtf16Go (List.replicate 20479 'a' ++ [replChar]) ['.', ' '] 0 = none
  apply lastIndexOfUtf16Go_none
  intro ch hch
  rcases List.mem_append.mp hch with hrep | hone
  · rw [List.eq_of_mem_replicate hrep]
    decide
  · rw [show ch = replChar by simpa using hone]
    decide

/-- truncateSummary on an oversized summary whose decoded cut has no sentence
boundary: the decoded cut plus the marker. -/
theorem truncateSummary_eq_of (summary t : String) (bs : List Nat)
    (hgt : (utf8Enc summary).length > MAX_CONTEXT_SIZE)
    (htake : (utf8Enc summary).take MAX_CONTEXT_SIZE = bs)
    (hdec : utf8DecStr bs = t)
    (hnone : lastIndexOfUtf16 t.data ['.', ' '] = none) :
    truncateSummary summary = String.mk t.data ++ truncMarkerStr := by
  simp only [truncateSummary]
  rw [if_pos hgt, htake, hdec, hnone]

theorem truncateSummary_oversized :
    truncateSummary oversizedSummary =
      String.mk (List.replicate 20479 'a' ++ [replChar]) ++ truncMarkerStr := by
  exact truncateSummary_eq_of oversizedSummary
    (String.mk (List.replicate 20479 'a' ++ [replChar]))
    (List.replicate 20479 97 ++ [195])
    (by rw [oversizedSummary_enc, List.length_append, List.length_replicate]; decide)
    oversizedSummary_take oversizedSummary_dec oversizedSummary_noPeriod

/-- The byte length of the stored oversized summary. -/
theorem oversizedSummary_stored_size :
    (utf8Enc (String.mk (List.replicate 20479 'a' ++ [replChar]) ++ truncMarkerStr)).length =
      20479 + 3 + (utf8Enc truncMarkerStr).length := by
  have h0 : utf8Enc (String.mk (List.replicate 20479 'a' ++ [replChar]) ++ truncMarkerStr) =
      utf8EncL (List.replicate 20479 'a') ++
        (utf8EncL [replChar] ++ utf8EncL truncMarkerStr.data) := by
    show utf8EncL ((List.replicate 20479 'a' ++ [replChar]) ++ truncMarkerStr.data) = _
    rw [utf8EncL_append, utf8EncL_append, List.append_assoc]
  rw [h0, utf8EncL_replicate_a]
  simp only [List.length_append, List.length_replicate]
  have h1 : (utf8EncL [replChar]).length = 3 := by decide
  have h2 : (utf8EncL truncMarkerStr.data).length = (utf8Enc truncMarkerStr).length := rfl
  omega

/-- The size bound claimed of the source does not hold: the oversized summary
is 20481 bytes long, the 20480-byte cut splits its final character, the
lenient decode turns the orphan lead byte into the replacement character, and
the stored summary re-encodes to 20479 + 3 bytes plus the 31-byte marker:
20513 bytes, two more than MAX_CONTEXT_SIZE plus the marker. -/
theorem addContext_size_counterexample :
    MAX_CONTEXT_SIZE + (utf8Enc truncMarkerStr).length <
      (utf8Enc (addContext { contexts := [], version := 1 } "n"
        oversizedSummary "id" "t" none none).2.summary).length := by
  simp only [addContext]
  rw [truncateSummary_oversized, oversizedSummary_stored_size,
      show MAX_CONTEXT_SIZE = 20480 from rfl]
  omega

end OCS
